/-
Verification of the SmartTransportationSystem core components
(`traffic_network.py`, `anomaly_injector.py`, `anomaly_detector.py`)
against their natural-language specification.

Python dictionaries are modelled as association lists (`List (κ × α)`):
iteration order is list order (Python dicts iterate in insertion order),
lookup returns the first matching entry, and in-place value mutation
rewrites the first matching entry.  Exceptions (`KeyError` from a dict
subscript, `ValueError` from `list.remove` on a missing element, and the
explicitly raised `ValueError`s) are modelled with `Except`; the spec's
error taxonomy names them.  `random.choice` is modelled by threading a
tape of naturals: each choice consumes the head of the tape and indexes
the non-empty candidate list by `head % length`.
-/
import Mathlib

namespace SmartTransport

/-! ## Dictionary (association list) helpers -/

/-- First-match lookup, as Python dict subscripting (sans the KeyError). -/
def lookup {α : Type} : List (Nat × α) → Nat → Option α
  | [], _ => none
  | e :: rest, k => if e.1 = k then some e.2 else lookup rest k

/-- Python `k in dict`. -/
def hasKey {α : Type} (m : List (Nat × α)) (k : Nat) : Bool :=
  (lookup m k).isSome

/-- In-place overwrite of the value stored at `k` (first matching entry);
identity when the key is absent (all uses are guarded by a lookup). -/
def setv {α : Type} : List (Nat × α) → Nat → α → List (Nat × α)
  | [], _, _ => []
  | e :: rest, k, v => if e.1 = k then (e.1, v) :: rest else e :: setv rest k v

/-! ## Data model -/

inductive SigState where
  | red
  | green
deriving DecidableEq, Repr

structure Signal where
  state : SigState
  green_duration : Int
  red_duration : Int
  counter : Int
deriving DecidableEq, Repr

/-- `self.vehicles` / a snapshot: intersection ID ↦ occupant vehicle list. -/
abbrev Occupants := List (Nat × List String)

structure TrafficNetwork where
  network : List (Nat × List Nat)
  vehicles : Occupants
  signals : List (Nat × Signal)
deriving DecidableEq, Repr

/-- The error kinds raised by the components: the spec's taxonomy
(`DuplicateIntersection`, `UnknownIntersection`, `VehicleNotFound`) plus
the `ValueError` that Python's `list.remove` raises when the element is
absent (`ValueNotInList`), which the spec does not name.  A failed dict
subscript (`KeyError` on an intersection key) is `UnknownIntersection`. -/
inductive NetError where
  | DuplicateIntersection
  | UnknownIntersection
  | VehicleNotFound
  | ValueNotInList
deriving DecidableEq, Repr

/-- A detected anomaly record: kind, vehicle and intersection — the three
data each human-readable violation string carries. -/
inductive AnomalyKind where
  | RedLightViolation
  | UnauthorizedVehicle
  | UnexpectedStop
deriving DecidableEq, Repr

structure Anomaly where
  kind : AnomalyKind
  vehicle : String
  intersection : Nat
deriving DecidableEq, Repr

/-- A Python `for` loop whose body may raise: fold with early error exit. -/
def exFoldl {σ α : Type} (f : σ → α → Except NetError σ) : σ → List α → Except NetError σ
  | s, [] => .ok s
  | s, a :: l =>
    match f s a with
    | .error e => .error e
    | .ok s' => exFoldl f s' l

/-! ## TrafficNetwork operations -/

/-- `TrafficNetwork.add_intersection`. -/
def add_intersection (net : TrafficNetwork) (id : Nat) (green_duration red_duration : Int) :
    Except NetError TrafficNetwork :=
  if hasKey net.network id then .error .DuplicateIntersection
  else .ok
    { network := net.network ++ [(id, [])]
      vehicles := net.vehicles ++ [(id, [])]
      signals := net.signals ++ [(id, ⟨.red, green_duration, red_duration, red_duration⟩)] }

/-- `TrafficNetwork.connect_intersections`: append `b` to `a`'s neighbor
list, then `a` to `b`'s (sequentially, so a self-loop appends twice). -/
def connect_intersections (net : TrafficNetwork) (a b : Nat) :
    Except NetError TrafficNetwork :=
  if hasKey net.network a ∧ hasKey net.network b then
    let m1 := setv net.network a ((lookup net.network a).getD [] ++ [b])
    let m2 := setv m1 b ((lookup m1 b).getD [] ++ [a])
    .ok { net with network := m2 }
  else .error .UnknownIntersection

/-- One signal's transition in `TrafficNetwork.update_signals`. -/
def updateSignal (s : Signal) : Signal :=
  if s.counter > 0 then { s with counter := s.counter - 1 }
  else if s.state = .red then { s with state := .green, counter := s.green_duration }
  else { s with state := .red, counter := s.red_duration }

/-- `TrafficNetwork.update_signals` (the spec's `advance_signals`). -/
def update_signals (net : TrafficNetwork) : TrafficNetwork :=
  { net with signals := net.signals.map (fun e => (e.1, updateSignal e.2)) }

/-- Intermediate state of `simulate_traffic_flow`: the local
`new_positions` mapping plus the remaining random tape. -/
structure MoveState where
  np : Occupants
  tape : List Nat
deriving Repr

/-- The body of the inner vehicle loop of `simulate_traffic_flow`:
`new_positions[intersection].remove(vehicle)`, then move the vehicle to a
randomly chosen neighbor, or back to `intersection` when it has none. -/
def processVehicle (adj : List (Nat × List Nat)) (i : Nat) (st : MoveState) (v : String) :
    Except NetError MoveState :=
  match lookup st.np i with
  | none => .error .UnknownIntersection
  | some li =>
    if v ∈ li then
      match lookup adj i with
      | none => .error .UnknownIntersection
      | some nbrs =>
        if nbrs.isEmpty then
          .ok ⟨setv (setv st.np i (li.erase v)) i (li.erase v ++ [v]), st.tape⟩
        else
          match lookup (setv st.np i (li.erase v))
              (nbrs.getD (st.tape.headD 0 % nbrs.length) 0) with
          | none => .error .UnknownIntersection
          | some ln =>
            .ok ⟨setv (setv st.np i (li.erase v))
                  (nbrs.getD (st.tape.headD 0 % nbrs.length) 0) (ln ++ [v]),
                st.tape.tail⟩
    else .error .ValueNotInList

/-- The body of the outer snapshot loop of `simulate_traffic_flow`:
look up the live signal of the snapshot intersection; at a green one,
move every vehicle of its snapshot list. -/
def processIntersection (signals : List (Nat × Signal)) (adj : List (Nat × List Nat))
    (st : MoveState) (e : Nat × List String) : Except NetError MoveState :=
  match lookup signals e.1 with
  | none => .error .UnknownIntersection
  | some sig =>
    if sig.state = .green ∧ e.2 ≠ [] then exFoldl (processVehicle adj e.1) st e.2
    else .ok st

/-- `TrafficNetwork.simulate_traffic_flow` (the spec's `step`): compute
`new_positions` from the snapshot (defaulting to a copy of the live
occupant mapping), and assign it to `self.vehicles` only at the very end,
so an intermediate exception leaves the live state untouched. -/
def simulate_traffic_flow (net : TrafficNetwork) (tape : List Nat)
    (snapshot? : Option Occupants) : Except NetError TrafficNetwork :=
  match exFoldl (processIntersection net.signals net.network) ⟨net.vehicles, tape⟩
      (snapshot?.getD net.vehicles) with
  | .error e => .error e
  | .ok st => .ok { net with vehicles := st.np }

/-! ## AnomalyInjector operations

The injector holds a reference to the network plus its own stopped-vehicle
ledger `stopped_vehicles : vehicle ID ↦ remaining stop count`. -/

/-- The injector's ledger, a Python dict keyed by vehicle ID. -/
abbrev Ledger := List (String × Int)

def ledgerLookup : Ledger → String → Option Int
  | [], _ => none
  | e :: rest, k => if e.1 = k then some e.2 else ledgerLookup rest k

def ledgerHasKey (m : Ledger) (k : String) : Bool :=
  (ledgerLookup m k).isSome

/-- Overwrite the first entry for `k` (identity when absent). -/
def ledgerSet : Ledger → String → Int → Ledger
  | [], _, _ => []
  | e :: rest, k, v => if e.1 = k then (e.1, v) :: rest else e :: ledgerSet rest k v

/-- Python `del dict[k]`: drop the first entry for `k`. -/
def ledgerDel : Ledger → String → Ledger
  | [], _ => []
  | e :: rest, k => if e.1 = k then rest else e :: ledgerDel rest k

/-- The linear scan that opens `AnomalyInjector.ignore_red_light`: the
first intersection (in occupant-map order) whose list contains the
vehicle. -/
def firstLoc : Occupants → String → Option Nat
  | [], _ => none
  | e :: rest, v => if v ∈ e.2 then some e.1 else firstLoc rest v

/-- `AnomalyInjector.ignore_red_light`: locate the vehicle, no-op when its
intersection has no neighbors, otherwise remove it there and append it to
a randomly chosen neighbor — the signal is never consulted. -/
def ignore_red_light (net : TrafficNetwork) (tape : List Nat) (v : String) :
    Except NetError TrafficNetwork :=
  match firstLoc net.vehicles v with
  | none => .error .VehicleNotFound
  | some cur =>
    match lookup net.network cur with
    | none => .error .UnknownIntersection
    | some nbrs =>
      if nbrs.isEmpty then .ok net
      else
        match lookup net.vehicles cur with
        | none => .error .UnknownIntersection
        | some lcur =>
          if v ∈ lcur then
            let vs1 := setv net.vehicles cur (lcur.erase v)
            let next := nbrs.getD (tape.headD 0 % nbrs.length) 0
            match lookup vs1 next with
            | none => .error .UnknownIntersection
            | some ln => .ok { net with vehicles := setv vs1 next (ln ++ [v]) }
          else .error .ValueNotInList

/-- `AnomalyInjector.unauthorized_entry`: check the target exists, remove
the vehicle's first occurrence from every occupant list holding it, then
append it to the target's list. -/
def unauthorized_entry (net : TrafficNetwork) (v : String) (iid : Nat) :
    Except NetError TrafficNetwork :=
  if hasKey net.vehicles iid then
    match lookup (net.vehicles.map (fun e => (e.1, e.2.erase v))) iid with
    | none => .error .UnknownIntersection
    | some l =>
      .ok { net with
            vehicles := setv (net.vehicles.map (fun e => (e.1, e.2.erase v))) iid
                (l ++ [v]) }
  else .error .UnknownIntersection

/-- `AnomalyInjector.cause_unexpected_stop`: record/overwrite
`ledger[vehicle] = steps` after checking the vehicle is in the network. -/
def cause_unexpected_stop (net : TrafficNetwork) (ledger : Ledger) (v : String) (steps : Int) :
    Except NetError Ledger :=
  if net.vehicles.any (fun e => v ∈ e.2) then
    .ok (if ledgerHasKey ledger v then ledgerSet ledger v steps else ledger ++ [(v, steps)])
  else .error .VehicleNotFound

/-- The inner search of `AnomalyInjector.apply_stops`: remove the first
occurrence of `v` from the first snapshot list containing it (then
`break`); identity when `v` is nowhere in the snapshot. -/
def removeFromSnapshot : Occupants → String → Occupants
  | [], _ => []
  | e :: rest, v =>
    if v ∈ e.2 then (e.1, e.2.erase v) :: rest else e :: removeFromSnapshot rest v

/-- One iteration of the `apply_stops` loop over the frozen
`list(self.stopped_vehicles.items())`. -/
def applyStopsStep (st : Occupants × Ledger) (e : String × Int) : Occupants × Ledger :=
  if e.2 > 0 then
    if (ledgerLookup (ledgerSet st.2 e.1 ((ledgerLookup st.2 e.1).getD e.2 - 1))
          e.1).getD 0 ≤ 0 then
      (removeFromSnapshot st.1 e.1,
       ledgerDel (ledgerSet st.2 e.1 ((ledgerLookup st.2 e.1).getD e.2 - 1)) e.1)
    else
      (removeFromSnapshot st.1 e.1,
       ledgerSet st.2 e.1 ((ledgerLookup st.2 e.1).getD e.2 - 1))
  else (st.1, ledgerDel st.2 e.1)

/-- `AnomalyInjector.apply_stops`: mutate the snapshot and the ledger —
the live network is not touched (it does not appear in the signature). -/
def apply_stops (ledger : Ledger) (snapshot : Occupants) : Occupants × Ledger :=
  ledger.foldl applyStopsStep (snapshot, ledger)

/-! ## AnomalyDetector

Records are modelled as `Anomaly` values carrying exactly the data of the
human-readable strings.  Python iterates `set(...)` values in the two
set-based passes; the sets are rendered as first-occurrence-deduplicated
lists, which is order-irrelevant for every property below. -/

/-- Pass 1, `_detect_red_light_violations`, for one snapshot entry. -/
def redLightEntry (net : TrafficNetwork) (e : Nat × List String) :
    Except NetError (List Anomaly) :=
  match lookup net.signals e.1 with
  | none => .error .UnknownIntersection
  | some sig =>
    if sig.state = .red ∧ e.2 ≠ [] then
      match lookup net.vehicles e.1 with
      | none => .error .UnknownIntersection
      | some live =>
        .ok ((e.2.dedup.filter (fun v => v ∉ live)).map
          (fun v => ⟨.RedLightViolation, v, e.1⟩))
    else .ok []

def detect_red_light_violations (net : TrafficNetwork) (snapshot : Occupants) :
    Except NetError (List Anomaly) :=
  exFoldl (fun acc e => (redLightEntry net e).map (acc ++ ·)) [] snapshot

/-- Pass 2, `_detect_unauthorized_vehicles`: flag every occupant of
`new_positions` absent from the known-vehicle set; never raises. -/
def detect_unauthorized_vehicles (known : List String) (new_positions : Occupants) :
    List Anomaly :=
  (new_positions.map (fun e =>
    e.2.filterMap (fun v =>
      if v ∈ known then none else some ⟨.UnauthorizedVehicle, v, e.1⟩))).flatten

/-- Pass 3 per-vehicle check of `_detect_unexpected_stops`: consult the
ledger when an injector reference exists, then the neighbor list. -/
def unexpectedStopVehicle (net : TrafficNetwork) (inj? : Option Ledger) (i : Nat)
    (v : String) : Except NetError (Option Anomaly) :=
  match inj? with
  | some led =>
    if ledgerHasKey led v then .ok none
    else
      match lookup net.network i with
      | none => .error .UnknownIntersection
      | some nbrs => .ok (if nbrs ≠ [] then some ⟨.UnexpectedStop, v, i⟩ else none)
  | none =>
    match lookup net.network i with
    | none => .error .UnknownIntersection
    | some nbrs => .ok (if nbrs ≠ [] then some ⟨.UnexpectedStop, v, i⟩ else none)

/-- Pass 3, `_detect_unexpected_stops`, for one snapshot entry: at a live
green intersection with a non-empty snapshot list, the vehicles that
stayed (`set(old) & set(new_positions[i])`) are checked one by one. -/
def unexpectedStopsEntry (net : TrafficNetwork) (inj? : Option Ledger)
    (new_positions : Occupants) (e : Nat × List String) :
    Except NetError (List Anomaly) :=
  match lookup net.signals e.1 with
  | none => .error .UnknownIntersection
  | some sig =>
    if sig.state = .green ∧ e.2 ≠ [] then
      match lookup new_positions e.1 with
      | none => .error .UnknownIntersection
      | some newl =>
        exFoldl (fun acc v =>
            ((unexpectedStopVehicle net inj? e.1 v).map Option.toList).map (acc ++ ·))
          [] (e.2.dedup.filter (fun v => v ∈ newl))
    else .ok []

def detect_unexpected_stops (net : TrafficNetwork) (inj? : Option Ledger)
    (snapshot new_positions : Occupants) : Except NetError (List Anomaly) :=
  exFoldl (fun acc e => (unexpectedStopsEntry net inj? new_positions e).map (acc ++ ·))
    [] snapshot

/-- `AnomalyDetector.detect_anomalies`: the three passes in their fixed
order, concatenated. -/
def detect_anomalies (net : TrafficNetwork) (inj? : Option Ledger) (known : List String)
    (snapshot new_positions : Occupants) : Except NetError (List Anomaly) :=
  match detect_red_light_violations net snapshot with
  | .error e => .error e
  | .ok r1 =>
    let r2 := detect_unauthorized_vehicles known new_positions
    match detect_unexpected_stops net inj? snapshot new_positions with
    | .error e => .error e
    | .ok r3 => .ok (r1 ++ r2 ++ r3)

/-! ## Counting helpers used by the theorems -/

/-- Total number of vehicle occurrences across all occupant lists. -/
def totalCount (m : Occupants) : Nat :=
  (m.map (fun e => e.2.length)).sum

/-- Total number of occurrences of one vehicle across all lists. -/
def totalOcc (m : Occupants) (v : String) : Nat :=
  (m.map (fun e => e.2.count v)).sum

/-- Occurrences of `v` in the (first) list stored at key `k`. -/
def countAt (m : Occupants) (k : Nat) (v : String) : Nat :=
  ((lookup m k).getD []).count v

/-- The keys of an association list, in order. -/
def keysOf {α : Type} (m : List (Nat × α)) : List Nat :=
  m.map (fun e => e.1)

/-! ## Signal lemmas -/

theorem lookup_map_val {α β : Type} (f : α → β) (m : List (Nat × α)) (k : Nat) :
    lookup (m.map (fun e => (e.1, f e.2))) k = (lookup m k).map f := by
  induction m with
  | nil => rfl
  | cons e rest ih =>
    simp only [List.map_cons, lookup]
    by_cases h : e.1 = k
    · simp [h]
    · simp [h, ih]

theorem lookup_update_signals_iterate (net : TrafficNetwork) (i : Nat) (n : Nat) :
    lookup (update_signals^[n] net).signals i =
      (lookup net.signals i).map (fun s => updateSignal^[n] s) := by
  induction n generalizing net with
  | zero =>
    simp only [Function.iterate_zero, id_eq]
    cases lookup net.signals i <;> rfl
  | succ n ih =>
    rw [Function.iterate_succ_apply, ih, update_signals, lookup_map_val]
    cases lookup net.signals i <;> simp [Function.iterate_succ_apply]

theorem updateSignal_iterate_counter (s : Signal) (c : Int) (hc : s.counter = c)
    (h0 : 0 ≤ c) (k : Nat) (hk : (k : Int) ≤ c) :
    updateSignal^[k] s = ⟨s.state, s.green_duration, s.red_duration, c - k⟩ := by
  induction k generalizing s c with
  | zero =>
    simp only [Function.iterate_zero, id_eq]
    cases s
    simp_all
  | succ k ih =>
    rw [Function.iterate_succ_apply]
    have hpos : s.counter > 0 := by
      rw [hc]
      have : (0 : Int) < (k : Int) + 1 := by positivity
      omega
    have hstep : updateSignal s = { s with counter := s.counter - 1 } := by
      unfold updateSignal
      rw [if_pos hpos]
    rw [hstep]
    have := ih (s := { s with counter := s.counter - 1 }) (c := c - 1)
      (by simp [hc]) (by omega) (by push_cast at hk ⊢; omega)
    rw [this]
    congr 1
    push_cast
    omega

/-- The one-intersection network produced by
`add_intersection(1, green_duration=2, red_duration=2)` on a fresh network. -/
def scenarioNet1 : TrafficNetwork :=
  ⟨[(1, [])], [(1, [])], [(1, ⟨.red, 2, 2, 2⟩)]⟩

/-- C2 (counterexample): an intersection created with durations 2/2 starts
RED with counter 2, and after exactly 2 calls to `update_signals` its
signal is still RED with counter 0 — not GREEN with counter 2 as claimed
(the toggle happens on the third call, when the counter has reached 0). -/
theorem C2_counterexample :
    add_intersection ⟨[], [], []⟩ 1 2 2 = .ok scenarioNet1 ∧
    lookup (update_signals (update_signals scenarioNet1)).signals 1 =
      some ⟨.red, 2, 2, 0⟩ ∧
    lookup (update_signals (update_signals scenarioNet1)).signals 1 ≠
      some ⟨.green, 2, 2, 2⟩ := by
  refine ⟨rfl, rfl, ?_⟩
  decide

/-- C2 (amended): any intersection whose signal is RED with durations 2/2
and counter 2 reaches GREEN with counter 2 after exactly 3 calls to
`update_signals` (counter 2 → 1 → 0, then the toggle resets it to the
green duration). -/
theorem C2_signal_green_after_three (net : TrafficNetwork) (i : Nat)
    (hs : lookup net.signals i = some ⟨.red, 2, 2, 2⟩) :
    lookup (update_signals^[3] net).signals i = some ⟨.green, 2, 2, 2⟩ := by
  rw [lookup_update_signals_iterate, hs]
  decide

theorem C2_signal_green_after_three_witness :
    lookup scenarioNet1.signals 1 = some ⟨.red, 2, 2, 2⟩ ∧
    lookup (update_signals^[3] scenarioNet1).signals 1 = some ⟨.green, 2, 2, 2⟩ :=
  ⟨rfl, C2_signal_green_after_three scenarioNet1 1 rfl⟩

/-- C3: `update_signals` treats each intersection independently and
deterministically.  For an intersection whose signal has counter `c ≥ 0`
and nonnegative durations: each of the first `c` calls only decrements
the counter (state unchanged, counter `c - k ≥ 0`), and the `(c+1)`-st
call toggles the state exactly once, resetting the counter to the
duration of the new state, which is again nonnegative — so the counter
never becomes negative. -/
theorem C3_advance_signals_behavior (net : TrafficNetwork) (i : Nat) (s : Signal) (c : Int)
    (hs : lookup net.signals i = some s) (hc : s.counter = c) (h0 : 0 ≤ c)
    (hg : 0 ≤ s.green_duration) (hr : 0 ≤ s.red_duration) :
    (∀ k : Nat, (k : Int) ≤ c →
      lookup (update_signals^[k] net).signals i =
        some ⟨s.state, s.green_duration, s.red_duration, c - k⟩ ∧ 0 ≤ c - (k : Int)) ∧
    ∃ s', lookup (update_signals^[c.toNat + 1] net).signals i = some s' ∧
      s'.state ≠ s.state ∧ 0 ≤ s'.counter ∧
      s' = if s.state = .red
           then ⟨.green, s.green_duration, s.red_duration, s.green_duration⟩
           else ⟨.red, s.green_duration, s.red_duration, s.red_duration⟩ := by
  constructor
  · intro k hk
    rw [lookup_update_signals_iterate, hs]
    simp only [Option.map_some']
    rw [updateSignal_iterate_counter s c hc h0 k hk]
    exact ⟨rfl, by omega⟩
  · rw [lookup_update_signals_iterate, hs]
    simp only [Option.map_some']
    have h2 : updateSignal^[c.toNat] s = ⟨s.state, s.green_duration, s.red_duration, 0⟩ := by
      rw [updateSignal_iterate_counter s c hc h0 c.toNat (by omega)]
      rw [Int.toNat_of_nonneg h0]
      simp
    rw [Function.iterate_succ_apply', h2]
    cases hst : s.state with
    | red =>
      refine ⟨_, rfl, ?_, ?_, ?_⟩ <;>
        simp [updateSignal, hst, hg]
    | green =>
      refine ⟨_, rfl, ?_, ?_, ?_⟩ <;>
        simp [updateSignal, hst, hr]

theorem C3_advance_signals_behavior_witness :
    (lookup scenarioNet1.signals 1 = some ⟨.red, 2, 2, 2⟩ ∧
      (Signal.counter ⟨.red, 2, 2, 2⟩ : Int) = 2 ∧ (0 : Int) ≤ 2 ∧
      (0 : Int) ≤ Signal.green_duration ⟨.red, 2, 2, 2⟩ ∧
      (0 : Int) ≤ Signal.red_duration ⟨.red, 2, 2, 2⟩) ∧
    ((∀ k : Nat, (k : Int) ≤ 2 →
      lookup (update_signals^[k] scenarioNet1).signals 1 =
        some ⟨SigState.red, 2, 2, 2 - k⟩ ∧ 0 ≤ 2 - (k : Int)) ∧
    ∃ s', lookup (update_signals^[(2 : Int).toNat + 1] scenarioNet1).signals 1 = some s' ∧
      s'.state ≠ SigState.red ∧ 0 ≤ s'.counter ∧
      s' = if SigState.red = SigState.red
           then ⟨.green, 2, 2, 2⟩ else ⟨.red, 2, 2, 2⟩) :=
  ⟨⟨rfl, rfl, by decide, by decide, by decide⟩,
    C3_advance_signals_behavior scenarioNet1 1 ⟨.red, 2, 2, 2⟩ 2 rfl rfl
      (by decide) (by decide) (by decide)⟩

/-! ## Association-list and fold machinery -/

theorem lookup_setv_self {α : Type} (m : List (Nat × α)) (k : Nat) (l l' : α)
    (h : lookup m k = some l) : lookup (setv m k l') k = some l' := by
  induction m with
  | nil => simp [lookup] at h
  | cons e rest ih =>
    by_cases he : e.1 = k
    · simp [setv, lookup, he]
    · simp only [lookup, if_neg he] at h
      simp [setv, lookup, he, ih h]

theorem lookup_setv_ne {α : Type} (m : List (Nat × α)) (k k' : Nat) (l' : α)
    (h : k' ≠ k) : lookup (setv m k l') k' = lookup m k' := by
  induction m with
  | nil => rfl
  | cons e rest ih =>
    by_cases he : e.1 = k
    · simp [setv, lookup, he, Ne.symm h]
    · by_cases he' : e.1 = k'
      · simp [setv, lookup, he, he', h]
      · simp [setv, lookup, he, he', ih]

theorem totalCount_setv (m : Occupants) (k : Nat) (l l' : List String)
    (h : lookup m k = some l) :
    totalCount (setv m k l') + l.length = totalCount m + l'.length := by
  induction m with
  | nil => simp [lookup] at h
  | cons e rest ih =>
    by_cases he : e.1 = k
    · simp only [lookup, if_pos he, Option.some.injEq] at h
      simp [setv, totalCount, he, h]
      omega
    · simp only [lookup, if_neg he] at h
      have := ih h
      simp only [setv, if_neg he, totalCount, List.map_cons, List.sum_cons] at *
      omega

theorem totalOcc_setv (m : Occupants) (k : Nat) (l l' : List String) (v : String)
    (h : lookup m k = some l) :
    totalOcc (setv m k l') v + l.count v = totalOcc m v + l'.count v := by
  induction m with
  | nil => simp [lookup] at h
  | cons e rest ih =>
    by_cases he : e.1 = k
    · simp only [lookup, if_pos he, Option.some.injEq] at h
      simp [setv, totalOcc, he, h]
      omega
    · simp only [lookup, if_neg he] at h
      have := ih h
      simp only [setv, if_neg he, totalOcc, List.map_cons, List.sum_cons] at *
      omega

theorem countAt_setv_self (m : Occupants) (k : Nat) (l l' : List String) (v : String)
    (h : lookup m k = some l) : countAt (setv m k l') k v = l'.count v := by
  unfold countAt
  rw [lookup_setv_self m k l l' h]
  rfl

theorem countAt_setv_ne (m : Occupants) (k k' : Nat) (l' : List String) (v : String)
    (h : k' ≠ k) : countAt (setv m k l') k' v = countAt m k' v := by
  unfold countAt
  rw [lookup_setv_ne m k k' l' h]

theorem count_eq_zero_of_totalOcc_zero (m : Occupants) (v : String) (k : Nat)
    (l : List String) (h0 : totalOcc m v = 0) (h : lookup m k = some l) :
    l.count v = 0 := by
  induction m with
  | nil => simp [lookup] at h
  | cons e rest ih =>
    simp only [totalOcc, List.map_cons, List.sum_cons, Nat.add_eq_zero] at h0
    by_cases he : e.1 = k
    · simp only [lookup, if_pos he, Option.some.injEq] at h
      rw [← h]
      exact h0.1
    · simp only [lookup, if_neg he] at h
      exact ih h0.2 h

/-- Invariant preservation through an exception-raising loop. -/
theorem exFoldl_invariant {σ α : Type} (f : σ → α → Except NetError σ) (P : σ → Prop)
    (l : List α) (hf : ∀ s a s', a ∈ l → f s a = .ok s' → P s → P s') :
    ∀ s s', exFoldl f s l = .ok s' → P s → P s' := by
  induction l with
  | nil =>
    intro s s' hfold hP
    simp only [exFoldl, Except.ok.injEq] at hfold
    rwa [← hfold]
  | cons a rest ih =>
    intro s s' hfold hP
    simp only [exFoldl] at hfold
    cases hfa : f s a with
    | error e => rw [hfa] at hfold; cases hfold
    | ok s1 =>
      rw [hfa] at hfold
      exact ih (fun t b t' hb => hf t b t' (List.mem_cons_of_mem a hb))
        s1 s' hfold (hf s a s1 (List.mem_cons_self a rest) hfa hP)

/-- A successful loop processed every element successfully (from some state). -/
theorem exFoldl_ok_of_mem {σ α : Type} (f : σ → α → Except NetError σ) (l : List α)
    (s s' : σ) (hfold : exFoldl f s l = .ok s') :
    ∀ a ∈ l, ∃ t t', f t a = .ok t' := by
  induction l generalizing s with
  | nil => intro a ha; cases ha
  | cons b rest ih =>
    intro a ha
    simp only [exFoldl] at hfold
    cases hfb : f s b with
    | error e => rw [hfb] at hfold; cases hfold
    | ok s1 =>
      rw [hfb] at hfold
      rcases List.mem_cons.mp ha with rfl | ha'
      · exact ⟨s, s1, hfb⟩
      · exact ih s1 hfold a ha'

/-- Any error a loop raises is an error its body can raise. -/
theorem exFoldl_error_kind {σ α : Type} (f : σ → α → Except NetError σ) (l : List α)
    (Q : NetError → Prop) (hf : ∀ s a e, f s a = .error e → Q e) :
    ∀ s e, exFoldl f s l = .error e → Q e := by
  induction l with
  | nil => intro s e h; simp [exFoldl] at h
  | cons a rest ih =>
    intro s e h
    simp only [exFoldl] at h
    cases hfa : f s a with
    | error e' =>
      rw [hfa] at h
      cases h
      exact hf s a e hfa
    | ok s1 =>
      rw [hfa] at h
      exact ih s1 e h

theorem exFoldl_append {σ α : Type} (f : σ → α → Except NetError σ) (l1 l2 : List α)
    (s : σ) :
    exFoldl f s (l1 ++ l2) =
      match exFoldl f s l1 with
      | .error e => .error e
      | .ok s' => exFoldl f s' l2 := by
  induction l1 generalizing s with
  | nil => simp [exFoldl]
  | cons a rest ih =>
    simp only [List.cons_append, exFoldl]
    cases f s a with
    | error e => rfl
    | ok s1 => exact ih s1

/-! ## C1: `step` conserves vehicle count -/

theorem processVehicle_totalCount (adj : List (Nat × List Nat)) (i : Nat) (st : MoveState)
    (v : String) (st' : MoveState) (h : processVehicle adj i st v = .ok st') :
    totalCount st'.np = totalCount st.np := by
  unfold processVehicle at h
  split at h
  · cases h
  next li hli =>
    split at h
    next hv =>
      split at h
      · cases h
      next nbrs hadj =>
        have hlen := List.length_erase_of_mem hv
        have hpos := List.length_pos_of_mem hv
        have hnp1 : lookup (setv st.np i (li.erase v)) i = some (li.erase v) :=
          lookup_setv_self st.np i li (li.erase v) hli
        have e1 := totalCount_setv st.np i li (li.erase v) hli
        split at h
        · cases h
          have e2 := totalCount_setv (setv st.np i (li.erase v)) i (li.erase v)
            (li.erase v ++ [v]) hnp1
          simp only [List.length_append, List.length_cons, List.length_nil] at e2
          simp only []
          omega
        · split at h
          · cases h
          next ln hln =>
            cases h
            have e2 := totalCount_setv (setv st.np i (li.erase v)) _ ln (ln ++ [v]) hln
            simp only [List.length_append, List.length_cons, List.length_nil] at e2
            simp only []
            omega
    next hv => cases h

theorem processIntersection_totalCount (signals : List (Nat × Signal))
    (adj : List (Nat × List Nat)) (st st' : MoveState) (e : Nat × List String)
    (h : processIntersection signals adj st e = .ok st') :
    totalCount st'.np = totalCount st.np := by
  unfold processIntersection at h
  split at h
  · cases h
  next sig hsig =>
    split at h
    · exact exFoldl_invariant (processVehicle adj e.1)
        (fun t => totalCount t.np = totalCount st.np) e.2
        (fun s a s' _ hok hP => by
          show totalCount s'.np = totalCount st.np
          rw [processVehicle_totalCount adj e.1 s a s' hok]; exact hP)
        st st' h rfl
    · cases h; rfl

/-- C1: `simulate_traffic_flow` conserves the vehicle count.  For any
snapshot whose keys are intersections of the network and whose
green-intersection occupant lists are (multiset-)contained in the
corresponding live occupant lists, a completed call leaves the total
number of vehicle occurrences across all occupant lists unchanged: each
moved vehicle is removed exactly once and appended exactly once. -/
theorem C1_step_conserves_vehicle_count (net : TrafficNetwork) (tape : List Nat)
    (snapshot : Occupants) (net' : TrafficNetwork)
    (hkeys : ∀ e ∈ snapshot, hasKey net.signals e.1 = true)
    (hgreen : ∀ e ∈ snapshot,
      ((lookup net.signals e.1).map Signal.state).getD .red = .green →
      ∀ w ∈ e.2, e.2.count w ≤ ((lookup net.vehicles e.1).getD []).count w)
    (hok : simulate_traffic_flow net tape (some snapshot) = .ok net') :
    totalCount net'.vehicles = totalCount net.vehicles := by
  unfold simulate_traffic_flow at hok
  simp only [Option.getD_some] at hok
  split at hok
  · cases hok
  next st hst =>
    cases hok
    simp only []
    exact exFoldl_invariant (processIntersection net.signals net.network)
      (fun t => totalCount t.np = totalCount net.vehicles) snapshot
      (fun s a s' _ hsok hP => by
        show totalCount s'.np = totalCount net.vehicles
        rw [processIntersection_totalCount net.signals net.network s s' a hsok]; exact hP)
      ⟨net.vehicles, tape⟩ st hst rfl

/-- A fully green three-intersection network in the shape of the repo's
test driver, at the point where all signals have toggled to green. -/
def c1Net : TrafficNetwork :=
  ⟨[(1, [2]), (2, [1, 3]), (3, [2])],
   [(1, ["Car1", "Car2"]), (2, ["Car3"]), (3, [])],
   [(1, ⟨.green, 2, 2, 2⟩), (2, ⟨.green, 2, 2, 2⟩), (3, ⟨.green, 2, 2, 2⟩)]⟩

def c1Snap : Occupants := [(1, ["Car1", "Car2"]), (2, ["Car3"]), (3, [])]

/-- The occupant mapping `simulate_traffic_flow c1Net [0,0,0] c1Snap`
computes: Car1 and Car2 move to 2, Car3 moves to 1. -/
def c1NetAfter : TrafficNetwork :=
  ⟨[(1, [2]), (2, [1, 3]), (3, [2])],
   [(1, ["Car3"]), (2, ["Car1", "Car2"]), (3, [])],
   [(1, ⟨.green, 2, 2, 2⟩), (2, ⟨.green, 2, 2, 2⟩), (3, ⟨.green, 2, 2, 2⟩)]⟩

theorem C1_step_conserves_vehicle_count_witness :
    ((∀ e ∈ c1Snap, hasKey c1Net.signals e.1 = true) ∧
     (∀ e ∈ c1Snap,
       ((lookup c1Net.signals e.1).map Signal.state).getD .red = .green →
       ∀ w ∈ e.2, e.2.count w ≤ ((lookup c1Net.vehicles e.1).getD []).count w) ∧
     simulate_traffic_flow c1Net [0, 0, 0] (some c1Snap) = .ok c1NetAfter) ∧
    totalCount c1NetAfter.vehicles = totalCount c1Net.vehicles :=
  ⟨⟨by decide, by decide, by rfl⟩,
    C1_step_conserves_vehicle_count c1Net [0, 0, 0] c1Snap c1NetAfter
      (by decide) (by decide) (by rfl)⟩

/-! ## C5: red intersections only ever gain occupants -/

theorem processVehicle_preserves_prefix (adj : List (Nat × List Nat)) (j i : Nat)
    (st st' : MoveState) (v : String) (li : List String) (hne : j ≠ i)
    (h : processVehicle adj j st v = .ok st')
    (hP : ∃ l', lookup st.np i = some l' ∧ li <+: l') :
    ∃ l', lookup st'.np i = some l' ∧ li <+: l' := by
  obtain ⟨l', hl', hpre⟩ := hP
  unfold processVehicle at h
  split at h
  · cases h
  next lj hlj =>
    split at h
    next hv =>
      split at h
      · cases h
      next nbrs hadj =>
        split at h
        · cases h
          refine ⟨l', ?_, hpre⟩
          simp only []
          rw [lookup_setv_ne _ j i _ hne.symm, lookup_setv_ne _ j i _ hne.symm]
          exact hl'
        · split at h
          · cases h
          next ln hln =>
            cases h
            simp only []
            by_cases hni : nbrs.getD (st.tape.headD 0 % nbrs.length) 0 = i
            · rw [hni] at hln ⊢
              rw [lookup_setv_ne _ j i _ hne.symm] at hln
              rw [hl'] at hln
              cases hln
              refine ⟨l' ++ [v], lookup_setv_self _ i l' _ ?_, hpre.trans (List.prefix_append l' [v])⟩
              rw [lookup_setv_ne _ j i _ hne.symm]
              exact hl'
            · refine ⟨l', ?_, hpre⟩
              rw [lookup_setv_ne _ _ i _ (Ne.symm hni), lookup_setv_ne _ j i _ hne.symm]
              exact hl'
    next hv => cases h

theorem processIntersection_preserves_red (signals : List (Nat × Signal))
    (adj : List (Nat × List Nat)) (i : Nat) (s : Signal)
    (hsig : lookup signals i = some s) (hred : s.state = .red)
    (st st' : MoveState) (e : Nat × List String) (li : List String)
    (h : processIntersection signals adj st e = .ok st')
    (hP : ∃ l', lookup st.np i = some l' ∧ li <+: l') :
    ∃ l', lookup st'.np i = some l' ∧ li <+: l' := by
  unfold processIntersection at h
  split at h
  · cases h
  next sig hsig' =>
    split at h
    next hgr =>
      have hne : e.1 ≠ i := by
        intro heq
        rw [heq, hsig] at hsig'
        cases hsig'
        rw [hred] at hgr
        exact absurd hgr.1 (by decide)
      exact exFoldl_invariant (processVehicle adj e.1)
        (fun t => ∃ l', lookup t.np i = some l' ∧ li <+: l') e.2
        (fun t a t' _ hok hQ =>
          processVehicle_preserves_prefix adj e.1 i t t' a li hne hok hQ)
        st st' h hP
    · cases h
      exact hP

/-- C5: `simulate_traffic_flow` never removes a vehicle from an
intersection whose current signal is RED, whatever the snapshot says
there: the live occupant list of a RED intersection is a prefix of its
list after the call (vehicles may still be appended as movement targets
of green neighbors), so every previous occupant is still there.  In
particular a vehicle listed at a RED snapshot intersection is never moved
by the computation generated from that snapshot. -/
theorem C5_red_intersection_keeps_occupants (net : TrafficNetwork) (tape : List Nat)
    (snapshot? : Option Occupants) (net' : TrafficNetwork) (i : Nat) (s : Signal)
    (li : List String)
    (hsig : lookup net.signals i = some s) (hred : s.state = .red)
    (hlive : lookup net.vehicles i = some li)
    (hok : simulate_traffic_flow net tape snapshot? = .ok net') :
    ∃ l', lookup net'.vehicles i = some l' ∧ li <+: l' := by
  unfold simulate_traffic_flow at hok
  split at hok
  · cases hok
  next st hst =>
    cases hok
    simp only []
    exact exFoldl_invariant (processIntersection net.signals net.network)
      (fun t => ∃ l', lookup t.np i = some l' ∧ li <+: l') (snapshot?.getD net.vehicles)
      (fun t a t' _ hsok hQ =>
        processIntersection_preserves_red net.signals net.network i s hsig hred
          t t' a li hsok hQ)
      ⟨net.vehicles, tape⟩ st hst ⟨li, hlive, List.prefix_refl li⟩

/-- A network where intersection 1 is RED and holds Car1, while green
intersection 2 sends Car3 over to 1. -/
def c5Net : TrafficNetwork :=
  ⟨[(1, [2]), (2, [1, 3]), (3, [2])],
   [(1, ["Car1"]), (2, ["Car3"]), (3, [])],
   [(1, ⟨.red, 2, 2, 1⟩), (2, ⟨.green, 2, 2, 1⟩), (3, ⟨.red, 2, 2, 1⟩)]⟩

def c5NetAfter : TrafficNetwork :=
  ⟨[(1, [2]), (2, [1, 3]), (3, [2])],
   [(1, ["Car1", "Car3"]), (2, []), (3, [])],
   [(1, ⟨.red, 2, 2, 1⟩), (2, ⟨.green, 2, 2, 1⟩), (3, ⟨.red, 2, 2, 1⟩)]⟩

theorem C5_red_intersection_keeps_occupants_witness :
    (lookup c5Net.signals 1 = some ⟨.red, 2, 2, 1⟩ ∧
     lookup c5Net.vehicles 1 = some ["Car1"] ∧
     simulate_traffic_flow c5Net [0] none = .ok c5NetAfter) ∧
    ∃ l', lookup c5NetAfter.vehicles 1 = some l' ∧ ["Car1"] <+: l' :=
  ⟨⟨rfl, rfl, by rfl⟩,
    C5_red_intersection_keeps_occupants c5Net [0] none c5NetAfter 1
      ⟨.red, 2, 2, 1⟩ ["Car1"] rfl rfl rfl (by rfl)⟩

/-! ## C4: failure behavior of `simulate_traffic_flow` on bad snapshots -/

theorem processVehicle_error_kind (adj : List (Nat × List Nat)) (i : Nat) (st : MoveState)
    (v : String) (e : NetError) (h : processVehicle adj i st v = .error e) :
    e = .UnknownIntersection ∨ e = .ValueNotInList := by
  unfold processVehicle at h
  split at h
  · cases h; left; rfl
  · split at h
    · split at h
      · cases h; left; rfl
      · split at h
        · cases h
        · split at h
          · cases h; left; rfl
          · cases h
    · cases h; right; rfl

theorem processIntersection_error_kind (signals : List (Nat × Signal))
    (adj : List (Nat × List Nat)) (st : MoveState) (e : Nat × List String) (err : NetError)
    (h : processIntersection signals adj st e = .error err) :
    err = .UnknownIntersection ∨ err = .ValueNotInList := by
  unfold processIntersection at h
  split at h
  · cases h; left; rfl
  · split at h
    · exact exFoldl_error_kind (processVehicle adj e.1) e.2
        (fun er => er = .UnknownIntersection ∨ er = .ValueNotInList)
        (fun s a er ha => processVehicle_error_kind adj e.1 s a er ha) st err h
    · cases h

theorem processIntersection_ok_signal (signals : List (Nat × Signal))
    (adj : List (Nat × List Nat)) (st st' : MoveState) (e : Nat × List String)
    (h : processIntersection signals adj st e = .ok st') :
    (lookup signals e.1).isSome = true := by
  unfold processIntersection at h
  split at h
  · cases h
  next sig hsig => rw [hsig]; rfl

/-- A one-green-intersection network whose live occupant list is empty. -/
def c4Net : TrafficNetwork := ⟨[(1, [])], [(1, [])], [(1, ⟨.green, 2, 2, 2⟩)]⟩

/-- A snapshot that references the unknown intersection 99, but whose
entry for the known green intersection 1 lists a vehicle that is not in
the live occupant list. -/
def c4Snap : Occupants := [(1, ["Ghost"]), (99, [])]

/-- C4 (counterexample): a snapshot referencing an unknown intersection ID
does not always fail with `UnknownIntersection`: here the green
intersection 1 is processed first and `new_positions[1].remove("Ghost")`
raises Python's `list.remove` ValueError (`ValueNotInList`) before the
unknown ID 99 is ever looked up. -/
theorem C4_counterexample :
    99 ∈ keysOf c4Snap ∧ hasKey c4Net.signals 99 = false ∧
    simulate_traffic_flow c4Net [] (some c4Snap) = .error .ValueNotInList ∧
    NetError.ValueNotInList ≠ NetError.UnknownIntersection := by
  refine ⟨by decide, by decide, by rfl, by decide⟩

/-- C4 (amended): if the snapshot passed to `simulate_traffic_flow`
references an intersection ID not present in the network, the whole
operation fails — with `UnknownIntersection` unless an earlier
vehicle-removal failure at a preceding green intersection raises first
(a `list.remove` ValueError).  No partial application is possible: the
newly computed mapping is assigned to the live state only after the whole
computation succeeds, so a failing call leaves all network state
unchanged (structurally, the error branch returns no new state). -/
theorem C4_unknown_snapshot_key_fails (net : TrafficNetwork) (tape : List Nat)
    (snapshot : Occupants) (k : Nat)
    (hk : k ∈ keysOf snapshot) (hunk : hasKey net.signals k = false) :
    ∃ e, simulate_traffic_flow net tape (some snapshot) = .error e ∧
      (e = .UnknownIntersection ∨ e = .ValueNotInList) := by
  unfold simulate_traffic_flow
  simp only [Option.getD_some]
  cases hres : exFoldl (processIntersection net.signals net.network)
      ⟨net.vehicles, tape⟩ snapshot with
  | ok st =>
    exfalso
    unfold keysOf at hk
    obtain ⟨a, ha, hak⟩ := List.mem_map.mp hk
    obtain ⟨t, t', hta⟩ := exFoldl_ok_of_mem _ snapshot _ st hres a ha
    have hsome := processIntersection_ok_signal net.signals net.network t t' a hta
    rw [hak] at hsome
    unfold hasKey at hunk
    rw [hsome] at hunk
    cases hunk
  | error e =>
    refine ⟨e, rfl, ?_⟩
    exact exFoldl_error_kind (processIntersection net.signals net.network) snapshot
        (fun er => er = .UnknownIntersection ∨ er = .ValueNotInList)
        (fun s a er ha => processIntersection_error_kind net.signals net.network s a er ha)
        ⟨net.vehicles, tape⟩ e hres

theorem C4_unknown_snapshot_key_fails_witness :
    (99 ∈ keysOf c4Snap ∧ hasKey c4Net.signals 99 = false) ∧
    ∃ e, simulate_traffic_flow c4Net [] (some c4Snap) = .error e ∧
      (e = .UnknownIntersection ∨ e = .ValueNotInList) :=
  ⟨⟨by decide, by decide⟩,
    C4_unknown_snapshot_key_fails c4Net [] c4Snap 99 (by decide) (by decide)⟩

/-! ## C8: `ignore_red_light` case analysis -/

theorem firstLoc_eq_none_iff (m : Occupants) (v : String) :
    firstLoc m v = none ↔ ∀ e ∈ m, v ∉ e.2 := by
  induction m with
  | nil => simp [firstLoc]
  | cons e rest ih =>
    by_cases hv : v ∈ e.2
    · simp [firstLoc, hv]
    · simp [firstLoc, hv, ih]

theorem lookup_mem_keys {α : Type} (m : List (Nat × α)) (k : Nat) (a : α)
    (h : lookup m k = some a) : k ∈ keysOf m := by
  induction m with
  | nil => simp [lookup] at h
  | cons e rest ih =>
    by_cases he : e.1 = k
    · simp [keysOf, he]
    · simp only [lookup, if_neg he] at h
      simp [keysOf]
      right
      have := ih h
      simpa [keysOf] using this

theorem firstLoc_lookup (m : Occupants) (v : String) (i : Nat)
    (hnd : (keysOf m).Nodup) (h : firstLoc m v = some i) :
    ∃ l, lookup m i = some l ∧ v ∈ l := by
  induction m with
  | nil => simp [firstLoc] at h
  | cons e rest ih =>
    simp only [keysOf, List.map_cons, List.nodup_cons] at hnd
    by_cases hv : v ∈ e.2
    · simp only [firstLoc, if_pos hv, Option.some.injEq] at h
      exact ⟨e.2, by simp [lookup, h], hv⟩
    · simp only [firstLoc, if_neg hv] at h
      obtain ⟨l, hl, hvl⟩ := ih hnd.2 h
      refine ⟨l, ?_, hvl⟩
      have hne : e.1 ≠ i := by
        intro heq
        exact hnd.1 (heq ▸ lookup_mem_keys rest i l hl)
      simp [lookup, hne, hl]

theorem getD_mem_of_lt {α : Type} (l : List α) (n : Nat) (d : α) (h : n < l.length) :
    l.getD n d ∈ l := by
  rw [List.getD_eq_getElem?_getD, List.getElem?_eq_getElem h]
  exact List.getElem_mem h

/-- C8: `ignore_red_light` fails with `VehicleNotFound` exactly when the
vehicle appears in no occupant list; when the vehicle is found at an
intersection with zero neighbors the call is a no-op returning the
network unchanged (and raises nothing); otherwise it removes the vehicle
from its current intersection and appends it to one of that
intersection's neighbors — the signal state is never consulted. -/
theorem C8_ignore_red_light_cases (net : TrafficNetwork) (tape : List Nat) (v : String)
    (hnd : (keysOf net.vehicles).Nodup) :
    (ignore_red_light net tape v = .error .VehicleNotFound ↔ ∀ e ∈ net.vehicles, v ∉ e.2) ∧
    (∀ i, firstLoc net.vehicles v = some i → lookup net.network i = some [] →
      ignore_red_light net tape v = .ok net) ∧
    (∀ i nbrs, firstLoc net.vehicles v = some i → lookup net.network i = some nbrs →
      nbrs ≠ [] → (∀ n ∈ nbrs, hasKey net.vehicles n = true) →
      ∃ n lcur ln, n ∈ nbrs ∧ lookup net.vehicles i = some lcur ∧ v ∈ lcur ∧
        lookup (setv net.vehicles i (lcur.erase v)) n = some ln ∧
        ignore_red_light net tape v =
          .ok { net with
                vehicles := setv (setv net.vehicles i (lcur.erase v)) n (ln ++ [v]) }) := by
  refine ⟨⟨?_, ?_⟩, ?_, ?_⟩
  · intro hres
    by_contra hnall
    push_neg at hnall
    obtain ⟨e, he, hv⟩ := hnall
    cases hfl : firstLoc net.vehicles v with
    | none =>
      rw [firstLoc_eq_none_iff] at hfl
      exact hfl e he hv
    | some i =>
      obtain ⟨lcur, hlcur, hvl⟩ := firstLoc_lookup _ _ _ hnd hfl
      unfold ignore_red_light at hres
      rw [hfl] at hres
      simp only [hlcur, if_pos hvl] at hres
      split at hres
      · simp at hres
      · split at hres
        · simp at hres
        · split at hres
          · simp at hres
          · simp at hres
  · intro hall
    have hfl : firstLoc net.vehicles v = none := (firstLoc_eq_none_iff _ _).mpr hall
    unfold ignore_red_light
    rw [hfl]
  · intro i hfl hadj
    unfold ignore_red_light
    rw [hfl]
    simp only []
    rw [hadj]
    rfl
  · intro i nbrs hfl hadj hne hnbrs
    obtain ⟨lcur, hlcur, hvl⟩ := firstLoc_lookup _ _ _ hnd hfl
    have hlen : 0 < nbrs.length := List.length_pos.mpr hne
    have hidx : tape.headD 0 % nbrs.length < nbrs.length := Nat.mod_lt _ hlen
    cases hln : lookup (setv net.vehicles i (lcur.erase v))
        (nbrs.getD (tape.headD 0 % nbrs.length) 0) with
    | none =>
      exfalso
      have hj : lookup net.vehicles (nbrs.getD (tape.headD 0 % nbrs.length) 0) = none := by
        by_cases hni : nbrs.getD (tape.headD 0 % nbrs.length) 0 = i
        · rw [hni] at hln
          rw [lookup_setv_self net.vehicles i lcur (lcur.erase v) hlcur] at hln
          cases hln
        · rw [lookup_setv_ne _ i _ _ hni] at hln
          exact hln
      have hmem : nbrs.getD (tape.headD 0 % nbrs.length) 0 ∈ nbrs :=
        getD_mem_of_lt _ _ _ hidx
      have := hnbrs _ hmem
      unfold hasKey at this
      rw [hj] at this
      cases this
    | some ln =>
      refine ⟨nbrs.getD (tape.headD 0 % nbrs.length) 0, lcur, ln,
        getD_mem_of_lt _ _ _ hidx, hlcur, hvl, hln, ?_⟩
      unfold ignore_red_light
      rw [hfl]
      simp only []
      rw [hadj]
      simp only []
      rw [if_neg (by simp [List.isEmpty_iff, hne])]
      rw [hlcur]
      simp only []
      rw [if_pos hvl, hln]

/-- Two connected intersections, Car1 at intersection 1 (RED — the call
must move it anyway). -/
def c8Net : TrafficNetwork :=
  ⟨[(1, [2]), (2, [1])], [(1, ["Car1"]), (2, [])],
   [(1, ⟨.red, 2, 2, 2⟩), (2, ⟨.red, 2, 2, 2⟩)]⟩

theorem C8_ignore_red_light_cases_witness :
    (keysOf c8Net.vehicles).Nodup ∧
    ((ignore_red_light c8Net [0] "Car1" = .error .VehicleNotFound ↔
        ∀ e ∈ c8Net.vehicles, "Car1" ∉ e.2) ∧
     (∀ i, firstLoc c8Net.vehicles "Car1" = some i → lookup c8Net.network i = some [] →
        ignore_red_light c8Net [0] "Car1" = .ok c8Net) ∧
     (∀ i nbrs, firstLoc c8Net.vehicles "Car1" = some i →
        lookup c8Net.network i = some nbrs →
        nbrs ≠ [] → (∀ n ∈ nbrs, hasKey c8Net.vehicles n = true) →
        ∃ n lcur ln, n ∈ nbrs ∧ lookup c8Net.vehicles i = some lcur ∧ "Car1" ∈ lcur ∧
          lookup (setv c8Net.vehicles i (lcur.erase "Car1")) n = some ln ∧
          ignore_red_light c8Net [0] "Car1" =
            .ok { c8Net with
                  vehicles := setv (setv c8Net.vehicles i (lcur.erase "Car1")) n
                      (ln ++ ["Car1"]) })) :=
  ⟨by decide, C8_ignore_red_light_cases c8Net [0] "Car1" (by decide)⟩

/-! ## C9: `unauthorized_entry` and the unauthorized-vehicle pass -/

theorem lookup_decomp {α : Type} (m : List (Nat × α)) (k : Nat) (l : α)
    (h : lookup m k = some l) :
    ∃ pre post, m = pre ++ (k, l) :: post ∧ ∀ e ∈ pre, e.1 ≠ k := by
  induction m with
  | nil => simp [lookup] at h
  | cons e rest ih =>
    by_cases he : e.1 = k
    · simp only [lookup, if_pos he, Option.some.injEq] at h
      refine ⟨[], rest, ?_, by simp⟩
      obtain ⟨e1, e2⟩ := e
      simp only at he h
      rw [he, h]
      rfl
    · simp only [lookup, if_neg he] at h
      obtain ⟨pre, post, hm, hpre⟩ := ih h
      exact ⟨e :: pre, post, by rw [hm]; rfl,
        by intro a ha; rcases List.mem_cons.mp ha with rfl | ha'
           · exact he
           · exact hpre a ha'⟩

/-- One occupant list's contribution to the unauthorized pass. -/
theorem count_filterMap_unauth (l : List String) (known : List String) (e1 : Nat)
    (v : String) (j : Nat) :
    (l.filterMap (fun w =>
        if w ∈ known then none else some ⟨.UnauthorizedVehicle, w, e1⟩)).count
      (⟨.UnauthorizedVehicle, v, j⟩ : Anomaly) =
      if e1 = j ∧ v ∉ known then l.count v else 0 := by
  induction l with
  | nil => simp
  | cons w rest ih =>
    by_cases hw : w ∈ known
    · rw [List.filterMap_cons_none (by simp [hw]), ih]
      by_cases hj : e1 = j ∧ v ∉ known
      · rw [if_pos hj, if_pos hj,
          List.count_cons_of_ne (fun hc => hj.2 (by rw [hc]; exact hw)) rest]
      · rw [if_neg hj, if_neg hj]
    · rw [@List.filterMap_cons_some _ _ _ w rest ⟨.UnauthorizedVehicle, w, e1⟩
        (by simp [hw])]
      by_cases hj : e1 = j ∧ v ∉ known
      · obtain ⟨hj1, hj2⟩ := hj
        subst hj1
        by_cases hwv : w = v
        · subst hwv
          rw [List.count_cons_self, ih, if_pos ⟨rfl, hj2⟩, if_pos ⟨rfl, hj2⟩,
            List.count_cons_self]
        · have hne1 : (⟨.UnauthorizedVehicle, v, e1⟩ : Anomaly) ≠
              ⟨.UnauthorizedVehicle, w, e1⟩ := by
            simp only [ne_eq, Anomaly.mk.injEq]
            intro hc
            exact hwv hc.2.1.symm
          rw [List.count_cons_of_ne hne1, ih, if_pos ⟨rfl, hj2⟩, if_pos ⟨rfl, hj2⟩,
            List.count_cons_of_ne (fun hc => hwv hc.symm)]
      · have hne1 : (⟨.UnauthorizedVehicle, v, j⟩ : Anomaly) ≠
            ⟨.UnauthorizedVehicle, w, e1⟩ := by
          simp only [ne_eq, Anomaly.mk.injEq]
          intro hc
          exact hj ⟨hc.2.2.symm, fun hk => hw (by rw [← hc.2.1]; exact hk)⟩
        rw [List.count_cons_of_ne hne1, ih, if_neg hj, if_neg hj]

theorem count_unauth_pass (newp : Occupants) (known : List String) (v : String) (j : Nat) :
    (detect_unauthorized_vehicles known newp).count
      (⟨.UnauthorizedVehicle, v, j⟩ : Anomaly) =
      if v ∈ known then 0
      else (newp.map (fun e => if e.1 = j then e.2.count v else 0)).sum := by
  induction newp with
  | nil => simp [detect_unauthorized_vehicles]
  | cons e rest ih =>
    unfold detect_unauthorized_vehicles at ih ⊢
    simp only [List.map_cons, List.flatten_cons, List.count_append, ih,
      count_filterMap_unauth, List.sum_cons]
    by_cases hk : v ∈ known
    · simp [hk]
    · simp only [hk, if_false]
      by_cases hj : e.1 = j
      · simp [hj, hk]
      · simp [hj, hk]

theorem redLightEntry_kinds (net : TrafficNetwork) (e : Nat × List String)
    (out : List Anomaly) (h : redLightEntry net e = .ok out) :
    ∀ a ∈ out, a.kind = .RedLightViolation := by
  unfold redLightEntry at h
  split at h
  · cases h
  · split at h
    · split at h
      · cases h
      · cases h
        intro a ha
        obtain ⟨w, hw, rfl⟩ := List.mem_map.mp ha
        rfl
    · cases h
      intro a ha
      exact absurd ha (List.not_mem_nil a)

theorem detect_red_light_kinds (net : TrafficNetwork) (snapshot : Occupants)
    (out : List Anomaly) (h : detect_red_light_violations net snapshot = .ok out) :
    ∀ a ∈ out, a.kind = .RedLightViolation := by
  unfold detect_red_light_violations at h
  refine exFoldl_invariant _ (fun acc => ∀ a ∈ acc, a.kind = .RedLightViolation)
    snapshot ?_ [] out h (by simp)
  intro s e s' _ hok hP
  cases hre : redLightEntry net e with
  | error er => rw [hre] at hok; cases hok
  | ok o =>
    rw [hre] at hok
    simp only [Except.map] at hok
    cases hok
    intro a ha
    rcases List.mem_append.mp ha with ha' | ha'
    · exact hP a ha'
    · exact redLightEntry_kinds net e o hre a ha'

theorem unexpectedStopVehicle_kind (net : TrafficNetwork) (inj? : Option Ledger)
    (i : Nat) (v : String) (a : Anomaly)
    (h : unexpectedStopVehicle net inj? i v = .ok (some a)) :
    a.kind = .UnexpectedStop := by
  unfold unexpectedStopVehicle at h
  split at h
  · split at h
    · cases h
    · split at h
      · cases h
      · split at h
        · cases h; rfl
        · cases h
  · split at h
    · cases h
    · split at h
      · cases h; rfl
      · cases h

theorem unexpectedStopsEntry_kinds (net : TrafficNetwork) (inj? : Option Ledger)
    (newp : Occupants) (e : Nat × List String) (out : List Anomaly)
    (h : unexpectedStopsEntry net inj? newp e = .ok out) :
    ∀ a ∈ out, a.kind = .UnexpectedStop := by
  unfold unexpectedStopsEntry at h
  split at h
  · cases h
  · split at h
    · split at h
      · cases h
      · refine exFoldl_invariant _ (fun acc => ∀ a ∈ acc, a.kind = .UnexpectedStop)
          _ ?_ [] out h (by simp)
        intro s w s' _ hok hP
        cases hv : unexpectedStopVehicle net inj? e.1 w with
        | error er => rw [hv] at hok; cases hok
        | ok o =>
          rw [hv] at hok
          simp only [Except.map] at hok
          cases hok
          intro b hb
          rcases List.mem_append.mp hb with hb' | hb'
          · exact hP b hb'
          · cases o with
            | none => cases hb'
            | some a =>
              rw [List.mem_singleton.mp hb']
              exact unexpectedStopVehicle_kind net inj? e.1 w a hv
    · cases h
      intro a ha
      exact absurd ha (List.not_mem_nil a)

theorem detect_unexpected_stops_kinds (net : TrafficNetwork) (inj? : Option Ledger)
    (snapshot newp : Occupants) (out : List Anomaly)
    (h : detect_unexpected_stops net inj? snapshot newp = .ok out) :
    ∀ a ∈ out, a.kind = .UnexpectedStop := by
  unfold detect_unexpected_stops at h
  refine exFoldl_invariant _ (fun acc => ∀ a ∈ acc, a.kind = .UnexpectedStop)
    snapshot ?_ [] out h (by simp)
  intro s e s' _ hok hP
  cases hre : unexpectedStopsEntry net inj? newp e with
  | error er => rw [hre] at hok; cases hok
  | ok o =>
    rw [hre] at hok
    simp only [Except.map] at hok
    cases hok
    intro a ha
    rcases List.mem_append.mp ha with ha' | ha'
    · exact hP a ha'
    · exact unexpectedStopsEntry_kinds net inj? newp e o hre a ha'

/-- When `v` occurs exactly once in `newp`, located in the entry that
`lookup` finds at `iid`, the per-key occurrence sums collapse. -/
theorem sum_entry_counts (newp : Occupants) (v : String) (iid : Nat)
    (htot : totalOcc newp v = 1) (hat : countAt newp iid v = 1) (j : Nat) :
    (newp.map (fun e => if e.1 = j then e.2.count v else 0)).sum =
      if j = iid then 1 else 0 := by
  cases hlk : lookup newp iid with
  | none =>
    unfold countAt at hat
    rw [hlk] at hat
    simp at hat
  | some l =>
    have hlc : l.count v = 1 := by
      unfold countAt at hat
      rw [hlk] at hat
      simpa using hat
    obtain ⟨pre, post, hdec, hpre⟩ := lookup_decomp newp iid l hlk
    subst hdec
    unfold totalOcc at htot
    rw [List.map_append, List.sum_append, List.map_cons, List.sum_cons, hlc] at htot
    have hpre0 : ∀ e ∈ pre, e.2.count v = 0 := by
      intro e he
      have h0 : (pre.map (fun e => e.2.count v)).sum = 0 := by omega
      exact List.sum_eq_zero_iff.mp h0 _ (List.mem_map_of_mem _ he)
    have hpost0 : ∀ e ∈ post, e.2.count v = 0 := by
      intro e he
      have h0 : (post.map (fun e => e.2.count v)).sum = 0 := by omega
      exact List.sum_eq_zero_iff.mp h0 _ (List.mem_map_of_mem _ he)
    rw [List.map_append, List.sum_append, List.map_cons, List.sum_cons]
    have h1 : (pre.map (fun e => if e.1 = j then e.2.count v else 0)).sum = 0 := by
      rw [List.sum_eq_zero_iff]
      intro x hx
      obtain ⟨e, he, rfl⟩ := List.mem_map.mp hx
      by_cases hej : e.1 = j
      · rw [if_pos hej]
        exact hpre0 e he
      · rw [if_neg hej]
    have h2 : (post.map (fun e => if e.1 = j then e.2.count v else 0)).sum = 0 := by
      rw [List.sum_eq_zero_iff]
      intro x hx
      obtain ⟨e, he, rfl⟩ := List.mem_map.mp hx
      by_cases hej : e.1 = j
      · rw [if_pos hej]
        exact hpost0 e he
      · rw [if_neg hej]
    rw [h1, h2]
    by_cases hj : j = iid
    · rw [if_pos hj, if_pos (by omega), hlc]
      omega
    · rw [if_neg hj, if_neg (by omega)]
      omega

/-- C9: `unauthorized_entry` fails with `UnknownIntersection` exactly when
the target intersection does not exist; on success the vehicle's first
occurrence is removed from every occupant list and the vehicle is
appended to the target's list, so it ends located at the target.  A
subsequent `detect_anomalies` whose `new_positions` place the vehicle
exactly once, at the target, with the vehicle outside the known-vehicle
set, reports exactly one Unauthorized Vehicle record, naming that vehicle
at that intersection. -/
theorem C9_unauthorized_entry_and_detection (net : TrafficNetwork) (v : String) (iid : Nat) :
    (unauthorized_entry net v iid = .error .UnknownIntersection ↔
      hasKey net.vehicles iid = false) ∧
    (∀ liid, lookup net.vehicles iid = some liid →
      ∃ net', unauthorized_entry net v iid = .ok net' ∧
        lookup net'.vehicles iid = some (liid.erase v ++ [v]) ∧
        (∀ j lj, j ≠ iid → lookup net.vehicles j = some lj →
          lookup net'.vehicles j = some (lj.erase v))) ∧
    (∀ inj? known snap newp out, v ∉ known →
      totalOcc newp v = 1 → countAt newp iid v = 1 →
      detect_anomalies net inj? known snap newp = .ok out →
      out.count (⟨.UnauthorizedVehicle, v, iid⟩ : Anomaly) = 1 ∧
        ∀ j, (⟨.UnauthorizedVehicle, v, j⟩ : Anomaly) ∈ out → j = iid) := by
  refine ⟨⟨?_, ?_⟩, ?_, ?_⟩
  · intro hres
    by_contra hk
    rw [Bool.not_eq_false] at hk
    unfold unauthorized_entry at hres
    rw [if_pos hk] at hres
    unfold hasKey at hk
    obtain ⟨l, hl⟩ := Option.isSome_iff_exists.mp hk
    rw [lookup_map_val (fun l => l.erase v) net.vehicles iid, hl] at hres
    simp at hres
  · intro hk
    unfold unauthorized_entry
    rw [if_neg (by simp [hk])]
  · intro liid hliid
    have hvs1 : lookup (net.vehicles.map (fun e => (e.1, e.2.erase v))) iid =
        some (liid.erase v) := by
      rw [lookup_map_val (fun l => l.erase v) net.vehicles iid, hliid]
      rfl
    refine ⟨{ net with
              vehicles := setv (net.vehicles.map (fun e => (e.1, e.2.erase v))) iid
                  (liid.erase v ++ [v]) }, ?_, ?_, ?_⟩
    · unfold unauthorized_entry
      rw [if_pos (by unfold hasKey; rw [hliid]; rfl), hvs1]
    · exact lookup_setv_self _ iid (liid.erase v) _ hvs1
    · intro j lj hj hlj
      rw [lookup_setv_ne _ iid j _ hj,
        lookup_map_val (fun l => l.erase v) net.vehicles j, hlj]
      rfl
  · intro inj? known snap newp out hknown htot hat hdet
    unfold detect_anomalies at hdet
    split at hdet
    · cases hdet
    next r1 hr1 =>
      split at hdet
      · cases hdet
      next r3 hr3 =>
        cases hdet
        have hc1 : r1.count (⟨.UnauthorizedVehicle, v, iid⟩ : Anomaly) = 0 := by
          rw [List.count_eq_zero]
          intro hmem
          have := detect_red_light_kinds net snap r1 hr1 _ hmem
          simp at this
        have hc3 : r3.count (⟨.UnauthorizedVehicle, v, iid⟩ : Anomaly) = 0 := by
          rw [List.count_eq_zero]
          intro hmem
          have := detect_unexpected_stops_kinds net inj? snap newp r3 hr3 _ hmem
          simp at this
        have hc2 := count_unauth_pass newp known v iid
        rw [if_neg hknown, sum_entry_counts newp v iid htot hat iid, if_pos rfl] at hc2
        constructor
        · rw [List.count_append, List.count_append, hc1, hc2, hc3]
        · intro j hj
          rcases List.mem_append.mp hj with hj' | hj'
          · rcases List.mem_append.mp hj' with hj'' | hj''
            · have := detect_red_light_kinds net snap r1 hr1 _ hj''
              simp at this
            · by_contra hne
              have hcj := count_unauth_pass newp known v j
              rw [if_neg hknown, sum_entry_counts newp v iid htot hat j,
                if_neg hne] at hcj
              rw [List.count_eq_zero] at hcj
              exact hcj hj''
          · have := detect_unexpected_stops_kinds net inj? snap newp r3 hr3 _ hj'
            simp at this

def c9Net : TrafficNetwork :=
  ⟨[(1, [2]), (2, [1, 3]), (3, [2])],
   [(1, ["Car1"]), (2, []), (3, [])],
   [(1, ⟨.red, 2, 2, 2⟩), (2, ⟨.red, 2, 2, 2⟩), (3, ⟨.red, 2, 2, 2⟩)]⟩

def c9Snap : Occupants := [(1, ["Car1"]), (2, []), (3, [])]

/-- Positions after `unauthorized_entry("CarX", 3)`: CarX only at 3. -/
def c9Newp : Occupants := [(1, ["Car1"]), (2, []), (3, ["CarX"])]

theorem C9_unauthorized_entry_and_detection_witness :
    (lookup c9Net.vehicles 3 = some [] ∧
     "CarX" ∉ ["Car1"] ∧ totalOcc c9Newp "CarX" = 1 ∧ countAt c9Newp 3 "CarX" = 1 ∧
     detect_anomalies c9Net (some []) ["Car1"] c9Snap c9Newp =
       .ok [⟨.UnauthorizedVehicle, "CarX", 3⟩]) ∧
    (∃ net', unauthorized_entry c9Net "CarX" 3 = .ok net' ∧
       lookup net'.vehicles 3 = some (List.erase [] "CarX" ++ ["CarX"]) ∧
       (∀ j lj, j ≠ 3 → lookup c9Net.vehicles j = some lj →
         lookup net'.vehicles j = some (lj.erase "CarX"))) ∧
    ([⟨.UnauthorizedVehicle, "CarX", 3⟩] : List Anomaly).count
        (⟨.UnauthorizedVehicle, "CarX", 3⟩ : Anomaly) = 1 ∧
    (∀ j, (⟨.UnauthorizedVehicle, "CarX", j⟩ : Anomaly) ∈
        ([⟨.UnauthorizedVehicle, "CarX", 3⟩] : List Anomaly) → j = 3) :=
  ⟨⟨rfl, by decide, by decide, by decide, by rfl⟩,
   (C9_unauthorized_entry_and_detection c9Net "CarX" 3).2.1 [] rfl,
   ((C9_unauthorized_entry_and_detection c9Net "CarX" 3).2.2 (some []) ["Car1"]
     c9Snap c9Newp [⟨.UnauthorizedVehicle, "CarX", 3⟩]
     (by decide) (by decide) (by decide) (by rfl)).1,
   ((C9_unauthorized_entry_and_detection c9Net "CarX" 3).2.2 (some []) ["Car1"]
     c9Snap c9Newp [⟨.UnauthorizedVehicle, "CarX", 3⟩]
     (by decide) (by decide) (by decide) (by rfl)).2⟩

/-! ## C6: `apply_stops` -/

theorem ledgerLookup_cons_ne (v k : String) (c : Int) (led : Ledger) (h : k ≠ v) :
    ledgerLookup ((v, c) :: led) k = ledgerLookup led k := by
  simp [ledgerLookup, Ne.symm h]

theorem ledgerSet_cons_ne (v k : String) (c x : Int) (led : Ledger) (h : k ≠ v) :
    ledgerSet ((v, c) :: led) k x = (v, c) :: ledgerSet led k x := by
  simp [ledgerSet, Ne.symm h]

theorem ledgerDel_cons_ne (v k : String) (c : Int) (led : Ledger) (h : k ≠ v) :
    ledgerDel ((v, c) :: led) k = (v, c) :: ledgerDel led k := by
  simp [ledgerDel, Ne.symm h]

theorem applyStopsStep_cons (v : String) (c : Int) (snap : Occupants) (led : Ledger)
    (e : String × Int) (hne : e.1 ≠ v) :
    applyStopsStep (snap, (v, c) :: led) e =
      ((applyStopsStep (snap, led) e).1, (v, c) :: (applyStopsStep (snap, led) e).2) := by
  unfold applyStopsStep
  simp only [ledgerLookup_cons_ne v e.1 c led hne, ledgerSet_cons_ne v e.1 c _ led hne,
    ledgerLookup_cons_ne v e.1 c (ledgerSet led e.1 _) hne,
    ledgerDel_cons_ne v e.1 c led hne,
    ledgerDel_cons_ne v e.1 c (ledgerSet led e.1 _) hne]
  by_cases h2 : e.2 > 0
  · rw [if_pos h2, if_pos h2]
    by_cases hz : (ledgerLookup (ledgerSet led e.1 ((ledgerLookup led e.1).getD e.2 - 1))
        e.1).getD 0 ≤ 0
    · rw [if_pos hz, if_pos hz]
    · rw [if_neg hz, if_neg hz]
  · rw [if_neg h2, if_neg h2]

theorem foldl_applyStopsStep_cons (fr : Ledger) (v : String) (c : Int) :
    ∀ snap led, (∀ e ∈ fr, e.1 ≠ v) →
    List.foldl applyStopsStep (snap, (v, c) :: led) fr =
      ((List.foldl applyStopsStep (snap, led) fr).1,
       (v, c) :: (List.foldl applyStopsStep (snap, led) fr).2) := by
  induction fr with
  | nil => intro snap led _; rfl
  | cons e rest ih =>
    intro snap led hne
    rw [List.foldl_cons, List.foldl_cons,
      applyStopsStep_cons v c snap led e (hne e (List.mem_cons_self e rest))]
    exact ih (applyStopsStep (snap, led) e).1 (applyStopsStep (snap, led) e).2
      (fun a ha => hne a (List.mem_cons_of_mem e ha))

theorem removeFromSnapshot_count_self (snap : Occupants) (v : String)
    (h : 0 < totalOcc snap v) :
    totalOcc (removeFromSnapshot snap v) v + 1 = totalOcc snap v := by
  induction snap with
  | nil => simp [totalOcc] at h
  | cons e rest ih =>
    by_cases hv : v ∈ e.2
    · unfold removeFromSnapshot
      rw [if_pos hv]
      unfold totalOcc
      simp only [List.map_cons, List.sum_cons]
      have h1 : 0 < e.2.count v := List.count_pos_iff.mpr hv
      have h2 : (e.2.erase v).count v = e.2.count v - 1 := List.count_erase_self v e.2
      omega
    · unfold removeFromSnapshot
      rw [if_neg hv]
      unfold totalOcc at h ⊢
      simp only [List.map_cons, List.sum_cons] at h ⊢
      have h0 : e.2.count v = 0 := List.count_eq_zero.mpr hv
      have := ih (by unfold totalOcc; omega)
      unfold totalOcc at this
      omega

theorem removeFromSnapshot_count_ne (snap : Occupants) (v w : String) (h : w ≠ v) :
    totalOcc (removeFromSnapshot snap v) w = totalOcc snap w := by
  induction snap with
  | nil => rfl
  | cons e rest ih =>
    by_cases hv : v ∈ e.2
    · unfold removeFromSnapshot
      rw [if_pos hv]
      unfold totalOcc
      simp only [List.map_cons, List.sum_cons]
      rw [List.count_erase_of_ne h]
    · unfold removeFromSnapshot
      rw [if_neg hv]
      unfold totalOcc at ih ⊢
      simp only [List.map_cons, List.sum_cons, ih]

theorem applyStops_fold_spec (fr : Ledger) :
    ∀ snap : Occupants, (fr.map (fun e => e.1)).Nodup →
    (∀ e ∈ fr, 0 < e.2 → 0 < totalOcc snap e.1) →
    (∀ e ∈ fr, 0 < e.2 →
      totalOcc (List.foldl applyStopsStep (snap, fr) fr).1 e.1 + 1 = totalOcc snap e.1) ∧
    (∀ w, (∀ e ∈ fr, 0 < e.2 → e.1 ≠ w) →
      totalOcc (List.foldl applyStopsStep (snap, fr) fr).1 w = totalOcc snap w) ∧
    (List.foldl applyStopsStep (snap, fr) fr).2 =
      fr.filterMap (fun e => if 1 < e.2 then some (e.1, e.2 - 1) else none) := by
  induction fr with
  | nil =>
    intro snap _ _
    refine ⟨?_, ?_, rfl⟩
    · intro e he; cases he
    · intro w _; rfl
  | cons hd rest ih =>
    intro snap hnd hpres
    obtain ⟨v, c⟩ := hd
    simp only [List.map_cons, List.nodup_cons] at hnd
    have hvrest : ∀ e ∈ rest, e.1 ≠ v := by
      intro e he hc
      exact hnd.1 (hc ▸ List.mem_map_of_mem (fun e => e.1) he)
    rw [List.foldl_cons]
    by_cases hc : (0 : Int) < c
    · have hpres1 : 0 < totalOcc snap v := hpres (v, c) (List.mem_cons_self _ _) hc
      have hrm := removeFromSnapshot_count_self snap v hpres1
      have hpres' : ∀ e ∈ rest, 0 < e.2 → 0 < totalOcc (removeFromSnapshot snap v) e.1 := by
        intro e he h2
        rw [removeFromSnapshot_count_ne snap v e.1 (hvrest e he)]
        exact hpres e (List.mem_cons_of_mem _ he) h2
      obtain ⟨ihA, ihB, ihC⟩ := ih (removeFromSnapshot snap v) hnd.2 hpres'
      by_cases hz : c - 1 ≤ 0
      · have hstep : applyStopsStep (snap, (v, c) :: rest) (v, c) =
            (removeFromSnapshot snap v, rest) := by
          simp [applyStopsStep, ledgerLookup, ledgerSet, ledgerDel, hc, hz]
        rw [hstep]
        refine ⟨?_, ?_, ?_⟩
        · intro e he h2
          rcases List.mem_cons.mp he with rfl | he'
          · rw [ihB v (fun a ha _ => hvrest a ha)]
            exact hrm
          · rw [ihA e he' h2, removeFromSnapshot_count_ne snap v e.1 (hvrest e he')]
        · intro w hw
          have hwv : v ≠ w := hw (v, c) (List.mem_cons_self _ _) hc
          rw [ihB w (fun e he h2 => hw e (List.mem_cons_of_mem _ he) h2),
            removeFromSnapshot_count_ne snap v w (Ne.symm hwv)]
        · rw [ihC, List.filterMap_cons_none (by rw [if_neg (by omega)])]
      · have hstep : applyStopsStep (snap, (v, c) :: rest) (v, c) =
            (removeFromSnapshot snap v, (v, c - 1) :: rest) := by
          simp [applyStopsStep, ledgerLookup, ledgerSet, ledgerDel, hc, hz]
        rw [hstep,
          foldl_applyStopsStep_cons rest v (c - 1) (removeFromSnapshot snap v) rest hvrest]
        refine ⟨?_, ?_, ?_⟩
        · intro e he h2
          rcases List.mem_cons.mp he with rfl | he'
          · rw [ihB v (fun a ha _ => hvrest a ha)]
            exact hrm
          · rw [ihA e he' h2, removeFromSnapshot_count_ne snap v e.1 (hvrest e he')]
        · intro w hw
          have hwv : v ≠ w := hw (v, c) (List.mem_cons_self _ _) hc
          rw [ihB w (fun e he h2 => hw e (List.mem_cons_of_mem _ he) h2),
            removeFromSnapshot_count_ne snap v w (Ne.symm hwv)]
        · rw [ihC, @List.filterMap_cons_some (String × Int) (String × Int) _ (v, c) rest
            (v, c - 1) (by rw [if_pos (by omega)])]
    · have hstep : applyStopsStep (snap, (v, c) :: rest) (v, c) = (snap, rest) := by
        simp [applyStopsStep, ledgerDel, hc]
      rw [hstep]
      obtain ⟨ihA, ihB, ihC⟩ := ih snap hnd.2
        (fun e he h2 => hpres e (List.mem_cons_of_mem _ he) h2)
      refine ⟨?_, ?_, ?_⟩
      · intro e he h2
        rcases List.mem_cons.mp he with rfl | he'
        · exact absurd h2 hc
        · exact ihA e he' h2
      · intro w hw
        exact ihB w (fun e he h2 => hw e (List.mem_cons_of_mem _ he) h2)
      · rw [ihC, List.filterMap_cons_none (by rw [if_neg (by omega)])]

/-- C6: `apply_stops` removes exactly one occurrence of each ledger
vehicle with remaining count > 0 from the passed snapshot (it is present
by assumption), leaves every other vehicle's occurrences untouched (in
particular entries with count ≤ 0 never touch the snapshot), and rewrites
the ledger so that an entry with count `c > 1` survives as `c - 1` while
entries reaching 0 — and stale entries with `c ≤ 0` — are deleted.  Only
the snapshot and the ledger are touched: the live network is not even an
input of the operation. -/
theorem C6_apply_stops_spec (ledger : Ledger) (snap snap' : Occupants) (led' : Ledger)
    (hnd : (ledger.map (fun e => e.1)).Nodup)
    (hpres : ∀ e ∈ ledger, 0 < e.2 → 0 < totalOcc snap e.1)
    (h : apply_stops ledger snap = (snap', led')) :
    (∀ e ∈ ledger, 0 < e.2 → totalOcc snap' e.1 + 1 = totalOcc snap e.1) ∧
    (∀ w, (∀ e ∈ ledger, 0 < e.2 → e.1 ≠ w) → totalOcc snap' w = totalOcc snap w) ∧
    led' = ledger.filterMap (fun e => if 1 < e.2 then some (e.1, e.2 - 1) else none) := by
  obtain ⟨hA, hB, hC⟩ := applyStops_fold_spec ledger snap hnd hpres
  unfold apply_stops at h
  rw [h] at hA hB hC
  exact ⟨hA, hB, hC⟩

def c6Ledger : Ledger := [("Car2", 2), ("Car9", 0)]

def c6Snap : Occupants := [(1, ["Car1", "Car2"]), (2, ["Car3"])]

theorem C6_apply_stops_spec_witness :
    ((c6Ledger.map (fun e => e.1)).Nodup ∧
     (∀ e ∈ c6Ledger, 0 < e.2 → 0 < totalOcc c6Snap e.1) ∧
     apply_stops c6Ledger c6Snap = ([(1, ["Car1"]), (2, ["Car3"])], [("Car2", 1)])) ∧
    ((∀ e ∈ c6Ledger, 0 < e.2 →
        totalOcc [(1, ["Car1"]), (2, ["Car3"])] e.1 + 1 = totalOcc c6Snap e.1) ∧
     (∀ w, (∀ e ∈ c6Ledger, 0 < e.2 → e.1 ≠ w) →
        totalOcc [(1, ["Car1"]), (2, ["Car3"])] w = totalOcc c6Snap w) ∧
     [("Car2", 1)] = c6Ledger.filterMap
        (fun e => if 1 < e.2 then some (e.1, e.2 - 1) else none)) :=
  ⟨⟨by decide, by decide, by rfl⟩,
    C6_apply_stops_spec c6Ledger c6Snap [(1, ["Car1"]), (2, ["Car3"])] [("Car2", 1)]
      (by decide) (by decide) (by rfl)⟩

/-! ## C7: the unexpected-stop pass flags exactly the right vehicles -/

/-- Membership in an accumulate-by-append loop over fallible per-element
outputs. -/
theorem exFoldl_concat_mem {α β : Type} (F : α → Except NetError (List β)) (l : List α) :
    ∀ acc r, exFoldl (fun acc x => (F x).map (acc ++ ·)) acc l = .ok r →
      ∀ a : β, (a ∈ r ↔ a ∈ acc ∨ ∃ x, x ∈ l ∧ ∃ ox, F x = .ok ox ∧ a ∈ ox) := by
  induction l with
  | nil =>
    intro acc r h a
    simp only [exFoldl, Except.ok.injEq] at h
    subst h
    simp
  | cons x rest ih =>
    intro acc r h a
    simp only [exFoldl] at h
    cases hF : F x with
    | error e =>
      rw [hF] at h
      simp only [Except.map] at h
      cases h
    | ok ox =>
      rw [hF] at h
      simp only [Except.map] at h
      rw [ih (acc ++ ox) r h a]
      constructor
      · rintro (hacc | ⟨y, hy, oy, hFy, hay⟩)
        · rcases List.mem_append.mp hacc with h1 | h2
          · exact Or.inl h1
          · exact Or.inr ⟨x, List.mem_cons_self _ _, ox, hF, h2⟩
        · exact Or.inr ⟨y, List.mem_cons_of_mem _ hy, oy, hFy, hay⟩
      · rintro (hacc | ⟨y, hy, oy, hFy, hay⟩)
        · exact Or.inl (List.mem_append.mpr (Or.inl hacc))
        · rcases List.mem_cons.mp hy with rfl | hy'
          · rw [hF] at hFy
            cases hFy
            exact Or.inl (List.mem_append.mpr (Or.inr hay))
          · exact Or.inr ⟨y, hy', oy, hFy, hay⟩

theorem lookup_of_mem_nodup {α : Type} (m : List (Nat × α)) (e : Nat × α)
    (hnd : (keysOf m).Nodup) (he : e ∈ m) : lookup m e.1 = some e.2 := by
  induction m with
  | nil => cases he
  | cons x rest ih =>
    unfold keysOf at hnd
    simp only [List.map_cons, List.nodup_cons] at hnd
    rcases List.mem_cons.mp he with rfl | he'
    · simp [lookup]
    · have hne : x.1 ≠ e.1 := by
        intro hc
        exact hnd.1 (hc ▸ List.mem_map_of_mem (fun e => e.1) he')
      simp only [lookup, if_neg hne]
      exact ih hnd.2 he'

theorem unexpectedStopVehicle_some_iff (net : TrafficNetwork) (inj? : Option Ledger)
    (i : Nat) (w : String) (a : Anomaly) :
    unexpectedStopVehicle net inj? i w = .ok (some a) ↔
      (a = ⟨.UnexpectedStop, w, i⟩ ∧
       (∀ led, inj? = some led → ledgerHasKey led w = false) ∧
       ∃ nbrs, lookup net.network i = some nbrs ∧ nbrs ≠ []) := by
  unfold unexpectedStopVehicle
  cases inj? with
  | some led =>
    simp only []
    by_cases hk : ledgerHasKey led w = true
    · rw [if_pos hk]
      constructor
      · intro h
        cases h
      · rintro ⟨_, hled, _⟩
        rw [hled led rfl] at hk
        cases hk
    · rw [if_neg hk]
      cases hadj : lookup net.network i with
      | none =>
        simp only []
        constructor
        · intro h
          cases h
        · rintro ⟨_, _, nbrs, hn, _⟩
          cases hn
      | some nbrs =>
        simp only []
        by_cases hne : nbrs ≠ []
        · rw [if_pos hne]
          constructor
          · intro h
            cases h
            exact ⟨rfl, fun led' hl => by cases hl; exact Bool.not_eq_true _ ▸ hk,
              nbrs, rfl, hne⟩
          · rintro ⟨rfl, _, nbrs', hn', _⟩
            cases hn'
            rfl
        · rw [if_neg hne]
          constructor
          · intro h
            cases h
          · rintro ⟨_, _, nbrs', hn', hne'⟩
            cases hn'
            exact absurd hne' hne
  | none =>
    simp only []
    cases hadj : lookup net.network i with
    | none =>
      simp only []
      constructor
      · intro h
        cases h
      · rintro ⟨_, _, nbrs, hn, _⟩
        cases hn
    | some nbrs =>
      simp only []
      by_cases hne : nbrs ≠ []
      · rw [if_pos hne]
        constructor
        · intro h
          cases h
          exact ⟨rfl, fun led' hl => Option.noConfusion hl, nbrs, rfl, hne⟩
        · rintro ⟨rfl, _, nbrs', hn', _⟩
          cases hn'
          rfl
      · rw [if_neg hne]
        constructor
        · intro h
          cases h
        · rintro ⟨_, _, nbrs', hn', hne'⟩
          cases hn'
          exact absurd hne' hne

theorem unexpectedStopsEntry_mem_iff (net : TrafficNetwork) (inj? : Option Ledger)
    (newp : Occupants) (e : Nat × List String) (oe : List Anomaly)
    (newl : List String) (sig : Signal)
    (hsig : lookup net.signals e.1 = some sig) (hgr : sig.state = .green)
    (hold : e.2 ≠ []) (hnew : lookup newp e.1 = some newl)
    (h : unexpectedStopsEntry net inj? newp e = .ok oe) (a : Anomaly) :
    a ∈ oe ↔ ∃ w, w ∈ e.2 ∧ w ∈ newl ∧
      unexpectedStopVehicle net inj? e.1 w = .ok (some a) := by
  unfold unexpectedStopsEntry at h
  rw [hsig] at h
  simp only [] at h
  rw [if_pos ⟨hgr, hold⟩, hnew] at h
  simp only [] at h
  rw [exFoldl_concat_mem (fun w => (unexpectedStopVehicle net inj? e.1 w).map Option.toList)
    (e.2.dedup.filter (fun v => v ∈ newl)) [] oe h a]
  simp only [List.not_mem_nil, false_or]
  constructor
  · rintro ⟨w, hw, ow, hFw, haw⟩
    rw [List.mem_filter] at hw
    cases hv : unexpectedStopVehicle net inj? e.1 w with
    | error er => rw [hv] at hFw; cases hFw
    | ok o =>
      rw [hv] at hFw
      simp only [Except.map] at hFw
      cases hFw
      cases o with
      | none => cases haw
      | some b =>
        have hab : a = b := by simpa using haw
        subst hab
        exact ⟨w, List.mem_dedup.mp hw.1, by simpa using hw.2, hv⟩
  · rintro ⟨w, hw1, hw2, hv⟩
    refine ⟨w, List.mem_filter.mpr ⟨List.mem_dedup.mpr hw1, by simpa using hw2⟩,
      [a], ?_, List.mem_singleton_self a⟩
    rw [hv]
    rfl

theorem unexpectedStopsEntry_intersection (net : TrafficNetwork) (inj? : Option Ledger)
    (newp : Occupants) (e : Nat × List String) (oe : List Anomaly)
    (h : unexpectedStopsEntry net inj? newp e = .ok oe) :
    ∀ a ∈ oe, a.intersection = e.1 := by
  unfold unexpectedStopsEntry at h
  split at h
  · cases h
  · split at h
    · split at h
      · cases h
      · intro a ha
        rw [exFoldl_concat_mem
          (fun w => (unexpectedStopVehicle net inj? e.1 w).map Option.toList)
          _ [] oe h a] at ha
        simp only [List.not_mem_nil, false_or] at ha
        obtain ⟨w, hw, ow, hFw, haw⟩ := ha
        cases hv : unexpectedStopVehicle net inj? e.1 w with
        | error er => rw [hv] at hFw; cases hFw
        | ok o =>
          rw [hv] at hFw
          simp only [Except.map] at hFw
          cases hFw
          cases o with
          | none => cases haw
          | some b =>
            have hab : a = b := by simpa using haw
            subst hab
            have hch := (unexpectedStopVehicle_some_iff net inj? e.1 w a).mp hv
            rw [hch.1]
    · cases h
      intro a ha
      exact absurd ha (List.not_mem_nil a)

/-- C7: in the unexpected-stop pass, given an intersection whose current
live signal is GREEN and whose snapshot occupant list is non-empty, a
vehicle that appears both in the snapshot list and in the `new_positions`
list there is flagged if and only if it passes the injector ledger check
(when an injector reference exists) and the intersection has at least one
neighbor.  In particular a zero-neighbor intersection never yields an
unexpected-stop record. -/
theorem C7_unexpected_stop_flag_iff (net : TrafficNetwork) (inj? : Option Ledger)
    (snap newp : Occupants) (out : List Anomaly) (i : Nat) (v : String)
    (old newl : List String) (sig : Signal)
    (hnd : (keysOf snap).Nodup)
    (hsnap : lookup snap i = some old)
    (hsig : lookup net.signals i = some sig) (hgr : sig.state = .green)
    (hold : old ≠ [])
    (hnew : lookup newp i = some newl)
    (hok : detect_unexpected_stops net inj? snap newp = .ok out) :
    (⟨.UnexpectedStop, v, i⟩ : Anomaly) ∈ out ↔
      (v ∈ old ∧ v ∈ newl ∧
       (∀ led, inj? = some led → ledgerHasKey led v = false) ∧
       ∃ nbrs, lookup net.network i = some nbrs ∧ nbrs ≠ []) := by
  unfold detect_unexpected_stops at hok
  rw [exFoldl_concat_mem (unexpectedStopsEntry net inj? newp) snap [] out hok]
  simp only [List.not_mem_nil, false_or]
  constructor
  · rintro ⟨e, he, oe, hoe, hmem⟩
    have hint := unexpectedStopsEntry_intersection net inj? newp e oe hoe _ hmem
    simp only [] at hint
    have hle := lookup_of_mem_nodup snap e hnd he
    rw [hint] at hsnap hsig hnew
    rw [hle] at hsnap
    cases hsnap
    rw [unexpectedStopsEntry_mem_iff net inj? newp e oe newl sig hsig hgr hold hnew hoe]
      at hmem
    obtain ⟨w, hw1, hw2, hv⟩ := hmem
    have hch := (unexpectedStopVehicle_some_iff net inj? e.1 w _).mp hv
    have hwv : w = v := by
      have := hch.1
      cases this
      rfl
    subst hwv
    rw [hint]
    exact ⟨hw1, hw2, hch.2.1, hch.2.2⟩
  · rintro ⟨hv1, hv2, hled, nbrs, hadj, hne⟩
    obtain ⟨pre, post, hdec, hpre⟩ := lookup_decomp snap i old hsnap
    have hmem_snap : (i, old) ∈ snap := by
      rw [hdec]
      exact List.mem_append.mpr (Or.inr (List.mem_cons_self _ _))
    obtain ⟨t, t', hstep⟩ := exFoldl_ok_of_mem _ snap _ out hok (i, old) hmem_snap
    have hoe : ∃ oe, unexpectedStopsEntry net inj? newp (i, old) = .ok oe := by
      cases he : unexpectedStopsEntry net inj? newp (i, old) with
      | error er => rw [he] at hstep; cases hstep
      | ok oe => exact ⟨oe, rfl⟩
    obtain ⟨oe, hoe⟩ := hoe
    refine ⟨(i, old), hmem_snap, oe, hoe, ?_⟩
    rw [unexpectedStopsEntry_mem_iff net inj? newp (i, old) oe newl sig hsig hgr hold
      hnew hoe]
    refine ⟨v, hv1, hv2, ?_⟩
    rw [unexpectedStopVehicle_some_iff]
    exact ⟨rfl, hled, nbrs, hadj, hne⟩

def c7Net : TrafficNetwork :=
  ⟨[(1, [2]), (2, [1])], [(1, ["CarS"]), (2, [])],
   [(1, ⟨.green, 2, 2, 2⟩), (2, ⟨.red, 2, 2, 2⟩)]⟩

theorem C7_unexpected_stop_flag_iff_witness :
    ((keysOf [(1, ["CarS"])] : List Nat).Nodup ∧
     lookup [(1, ["CarS"])] 1 = some ["CarS"] ∧
     lookup c7Net.signals 1 = some ⟨.green, 2, 2, 2⟩ ∧
     (["CarS"] : List String) ≠ [] ∧
     lookup [(1, ["CarS"])] 1 = some ["CarS"] ∧
     detect_unexpected_stops c7Net (some []) [(1, ["CarS"])] [(1, ["CarS"])] =
       .ok [⟨.UnexpectedStop, "CarS", 1⟩]) ∧
    ((⟨.UnexpectedStop, "CarS", 1⟩ : Anomaly) ∈ [(⟨.UnexpectedStop, "CarS", 1⟩ : Anomaly)] ↔
      ("CarS" ∈ (["CarS"] : List String) ∧ "CarS" ∈ (["CarS"] : List String) ∧
       (∀ led, (some ([] : Ledger)) = some led → ledgerHasKey led "CarS" = false) ∧
       ∃ nbrs, lookup c7Net.network 1 = some nbrs ∧ nbrs ≠ [])) :=
  ⟨⟨by decide, rfl, rfl, by decide, rfl, by rfl⟩,
    C7_unexpected_stop_flag_iff c7Net (some []) [(1, ["CarS"])] [(1, ["CarS"])]
      [⟨.UnexpectedStop, "CarS", 1⟩] 1 "CarS" ["CarS"] ["CarS"] ⟨.green, 2, 2, 2⟩
      (by decide) rfl rfl rfl (by decide) rfl (by rfl)⟩

/-! ## C10: a vehicle moves at most one hop per `simulate_traffic_flow` call -/

theorem countAt_setv_frame (m : Occupants) (k : Nat) (l l' : List String) (v : String)
    (hlk : lookup m k = some l) (hc : l'.count v = l.count v) :
    (∀ q, countAt (setv m k l') q v = countAt m q v) ∧
      totalOcc (setv m k l') v = totalOcc m v := by
  refine ⟨?_, ?_⟩
  · intro q
    by_cases hq : q = k
    · subst hq
      rw [countAt_setv_self m q l l' v hlk, hc]
      unfold countAt
      rw [hlk]
      rfl
    · rw [countAt_setv_ne m k q l' v hq]
  · have := totalOcc_setv m k l l' v hlk
    omega

theorem processVehicle_count_frame (adj : List (Nat × List Nat)) (j : Nat)
    (st st' : MoveState) (w v : String) (hw : w ≠ v)
    (h : processVehicle adj j st w = .ok st') :
    (∀ q, countAt st'.np q v = countAt st.np q v) ∧
      totalOcc st'.np v = totalOcc st.np v := by
  unfold processVehicle at h
  split at h
  · cases h
  next lj hlj =>
    split at h
    next hwin =>
      split at h
      · cases h
      next nbrs hadj =>
        have herase : (lj.erase w).count v = lj.count v :=
          List.count_erase_of_ne (Ne.symm hw) lj
        have hframe1 := countAt_setv_frame st.np j lj (lj.erase w) v hlj herase
        have hnp1 : lookup (setv st.np j (lj.erase w)) j = some (lj.erase w) :=
          lookup_setv_self st.np j lj (lj.erase w) hlj
        split at h
        · cases h
          have happ : (lj.erase w ++ [w]).count v = (lj.erase w).count v := by
            rw [List.count_append]
            simp [List.count_singleton', Ne.symm hw]
          have hframe2 := countAt_setv_frame (setv st.np j (lj.erase w)) j
            (lj.erase w) (lj.erase w ++ [w]) v hnp1 happ
          exact ⟨fun q => (hframe2.1 q).trans (hframe1.1 q),
            hframe2.2.trans hframe1.2⟩
        · split at h
          · cases h
          next ln hln =>
            cases h
            have happ : (ln ++ [w]).count v = ln.count v := by
              rw [List.count_append]
              simp [List.count_singleton', Ne.symm hw]
            have hframe2 := countAt_setv_frame (setv st.np j (lj.erase w)) _
              ln (ln ++ [w]) v hln happ
            exact ⟨fun q => (hframe2.1 q).trans (hframe1.1 q),
              hframe2.2.trans hframe1.2⟩
    next hwin => cases h

theorem processIntersection_count_frame (signals : List (Nat × Signal))
    (adj : List (Nat × List Nat)) (st st' : MoveState) (e : Nat × List String)
    (v : String) (hv : e.2.count v = 0)
    (h : processIntersection signals adj st e = .ok st') :
    (∀ q, countAt st'.np q v = countAt st.np q v) ∧
      totalOcc st'.np v = totalOcc st.np v := by
  unfold processIntersection at h
  split at h
  · cases h
  · split at h
    · refine exFoldl_invariant (processVehicle adj e.1)
        (fun t => (∀ q, countAt t.np q v = countAt st.np q v) ∧
          totalOcc t.np v = totalOcc st.np v) e.2 ?_ st st' h
        ⟨fun q => rfl, rfl⟩
      intro s w s' hwmem hok hP
      have hwv : w ≠ v := by
        rintro rfl
        rw [List.count_eq_zero] at hv
        exact hv hwmem
      have := processVehicle_count_frame adj e.1 s s' w v hwv hok
      exact ⟨fun q => (this.1 q).trans (hP.1 q), this.2.trans hP.2⟩
    · cases h
      exact ⟨fun q => rfl, rfl⟩

theorem occupants_counts_split (m : Occupants) (v : String) (i : Nat) (li : List String)
    (hlk : lookup m i = some li)
    (htot : totalOcc m v = 1) (hat : countAt m i v = 1) :
    ∃ pre post, m = pre ++ (i, li) :: post ∧ (∀ e ∈ pre, e.1 ≠ i) ∧
      (∀ e ∈ pre, e.2.count v = 0) ∧ (∀ e ∈ post, e.2.count v = 0) ∧
      li.count v = 1 := by
  obtain ⟨pre, post, hdec, hpre⟩ := lookup_decomp m i li hlk
  have hli : li.count v = 1 := by
    unfold countAt at hat
    rw [hlk] at hat
    simpa using hat
  subst hdec
  unfold totalOcc at htot
  rw [List.map_append, List.sum_append, List.map_cons, List.sum_cons, hli] at htot
  refine ⟨pre, post, rfl, hpre, ?_, ?_, hli⟩
  · intro e he
    have h0 : (pre.map (fun e => e.2.count v)).sum = 0 := by omega
    exact List.sum_eq_zero_iff.mp h0 _ (List.mem_map_of_mem _ he)
  · intro e he
    have h0 : (post.map (fun e => e.2.count v)).sum = 0 := by omega
    exact List.sum_eq_zero_iff.mp h0 _ (List.mem_map_of_mem _ he)

theorem list_count_one_split (l : List String) (v : String) (h : l.count v = 1) :
    ∃ la lb, l = la ++ v :: lb ∧ la.count v = 0 ∧ lb.count v = 0 := by
  have hv : v ∈ l := List.count_pos_iff.mp (by omega)
  obtain ⟨la, lb, rfl⟩ := List.append_of_mem hv
  rw [List.count_append, List.count_cons_self] at h
  exact ⟨la, lb, rfl, by omega, by omega⟩

theorem processVehicle_self_step (adj : List (Nat × List Nat)) (i : Nat)
    (st st' : MoveState) (v : String)
    (hcnt : countAt st.np i v = 1) (htot : totalOcc st.np v = 1)
    (h : processVehicle adj i st v = .ok st') :
    ∃ j, (j = i ∨ ∃ nbrs, lookup adj i = some nbrs ∧ j ∈ nbrs) ∧
      countAt st'.np j v = 1 ∧ totalOcc st'.np v = 1 := by
  unfold processVehicle at h
  split at h
  · cases h
  next li hli =>
    have hlic : li.count v = 1 := by
      unfold countAt at hcnt
      rw [hli] at hcnt
      simpa using hcnt
    split at h
    next hvin =>
      split at h
      · cases h
      next nbrs hadj =>
        have herase : (li.erase v).count v = 0 := by
          rw [List.count_erase_self]
          omega
        have hnp1 : lookup (setv st.np i (li.erase v)) i = some (li.erase v) :=
          lookup_setv_self st.np i li (li.erase v) hli
        have hnp1at : countAt (setv st.np i (li.erase v)) i v = 0 := by
          rw [countAt_setv_self st.np i li (li.erase v) v hli]
          exact herase
        have hnp1tot : totalOcc (setv st.np i (li.erase v)) v = 0 := by
          have := totalOcc_setv st.np i li (li.erase v) v hli
          omega
        split at h
        next hemp =>
          cases h
          refine ⟨i, Or.inl rfl, ?_, ?_⟩
          · rw [countAt_setv_self _ i (li.erase v) _ v hnp1]
            rw [List.count_append, herase]
            simp
          · show totalOcc (setv (setv st.np i (li.erase v)) i (li.erase v ++ [v])) v = 1
            have h2 := totalOcc_setv (setv st.np i (li.erase v)) i (li.erase v)
              (li.erase v ++ [v]) v hnp1
            have hone : (li.erase v ++ [v]).count v = 1 := by
              rw [List.count_append, herase]
              simp
            omega
        next hemp =>
          split at h
          · cases h
          next ln hln =>
            cases h
            have hlen : 0 < nbrs.length := List.length_pos.mpr (by simpa using hemp)
            have hlnc : ln.count v = 0 :=
              count_eq_zero_of_totalOcc_zero _ v _ ln hnp1tot hln
            refine ⟨nbrs.getD (st.tape.headD 0 % nbrs.length) 0,
              Or.inr ⟨nbrs, hadj, getD_mem_of_lt _ _ _ (Nat.mod_lt _ hlen)⟩, ?_, ?_⟩
            · rw [countAt_setv_self _ _ ln _ v hln]
              rw [List.count_append, hlnc]
              simp
            · show totalOcc (setv (setv st.np i (li.erase v))
                  (nbrs.getD (st.tape.headD 0 % nbrs.length) 0) (ln ++ [v])) v = 1
              have h2 := totalOcc_setv (setv st.np i (li.erase v)) _ ln (ln ++ [v]) v hln
              have hone : (ln ++ [v]).count v = 1 := by
                rw [List.count_append, hlnc]
                simp
              omega
    next hvin =>
      exfalso
      apply hvin
      exact List.count_pos_iff.mp (by omega)

theorem processIntersection_self (signals : List (Nat × Signal))
    (adj : List (Nat × List Nat)) (st st' : MoveState) (i : Nat) (li : List String)
    (v : String)
    (hcnt : countAt st.np i v = 1) (htot : totalOcc st.np v = 1) (hli : li.count v = 1)
    (h : processIntersection signals adj st (i, li) = .ok st') :
    ∃ j, (j = i ∨ ∃ nbrs, lookup adj i = some nbrs ∧ j ∈ nbrs) ∧
      countAt st'.np j v = 1 ∧ totalOcc st'.np v = 1 := by
  unfold processIntersection at h
  split at h
  · cases h
  next sig hsig =>
    split at h
    next hgr =>
      simp only [] at h
      obtain ⟨la, lb, hsplit, hla, hlb⟩ := list_count_one_split li v hli
      rw [hsplit, exFoldl_append] at h
      split at h
      · cases h
      next stA hA =>
        have hQA : countAt stA.np i v = 1 ∧ totalOcc stA.np v = 1 := by
          refine exFoldl_invariant (processVehicle adj i)
            (fun t => countAt t.np i v = 1 ∧ totalOcc t.np v = 1) la ?_ st stA hA
            ⟨hcnt, htot⟩
          intro s w s' hwmem hok hP
          have hwv : w ≠ v := by
            rintro rfl
            rw [List.count_eq_zero] at hla
            exact hla hwmem
          have := processVehicle_count_frame adj i s s' w v hwv hok
          exact ⟨(this.1 i).trans hP.1, this.2.trans hP.2⟩
        simp only [exFoldl] at h
        split at h
        · cases h
        next stB hB =>
          obtain ⟨j, hj, hjB, htotB⟩ :=
            processVehicle_self_step adj i stA stB v hQA.1 hQA.2 hB
          refine ⟨j, hj, ?_⟩
          have : countAt st'.np j v = 1 ∧ totalOcc st'.np v = 1 := by
            refine exFoldl_invariant (processVehicle adj i)
              (fun t => countAt t.np j v = 1 ∧ totalOcc t.np v = 1) lb ?_ stB st' h
              ⟨hjB, htotB⟩
            intro s w s' hwmem hok hP
            have hwv : w ≠ v := by
              rintro rfl
              rw [List.count_eq_zero] at hlb
              exact hlb hwmem
            have := processVehicle_count_frame adj i s s' w v hwv hok
            exact ⟨(this.1 j).trans hP.1, this.2.trans hP.2⟩
          exact this
    next hgr =>
      cases h
      exact ⟨i, Or.inl rfl, hcnt, htot⟩

/-- C10: with no snapshot argument, `simulate_traffic_flow` copies the
live occupant mapping before computing any movement, so a vehicle changes
location at most once per call: a vehicle that occurs exactly once, at
intersection `i`, ends the call occurring exactly once, either still at
`i` or at one of `i`'s direct neighbors — never two or more hops away. -/
theorem C10_no_multi_hop (net : TrafficNetwork) (tape : List Nat)
    (net' : TrafficNetwork) (v : String) (i : Nat)
    (htot : totalOcc net.vehicles v = 1) (hat : countAt net.vehicles i v = 1)
    (hok : simulate_traffic_flow net tape none = .ok net') :
    ∃ j, (j = i ∨ ∃ nbrs, lookup net.network i = some nbrs ∧ j ∈ nbrs) ∧
      totalOcc net'.vehicles v = 1 ∧ countAt net'.vehicles j v = 1 := by
  unfold simulate_traffic_flow at hok
  simp only [Option.getD_none] at hok
  split at hok
  · cases hok
  next st hst =>
    cases hok
    obtain ⟨li, hlk⟩ : ∃ li, lookup net.vehicles i = some li := by
      unfold countAt at hat
      cases hl : lookup net.vehicles i with
      | none => rw [hl] at hat; simp at hat
      | some l => exact ⟨l, rfl⟩
    obtain ⟨pre, post, hdec, hprene, hpre0, hpost0, hli⟩ :=
      occupants_counts_split net.vehicles v i li hlk htot hat
    rw [hdec] at hst hat htot
    rw [exFoldl_append] at hst
    split at hst
    · cases hst
    next st1 h1 =>
      have hQ1 : countAt st1.np i v = 1 ∧ totalOcc st1.np v = 1 := by
        refine exFoldl_invariant (processIntersection net.signals net.network)
          (fun t => countAt t.np i v = 1 ∧ totalOcc t.np v = 1) pre ?_
          ⟨pre ++ (i, li) :: post, tape⟩ st1 h1 ⟨hat, htot⟩
        intro s e s' hemem hok' hP
        have := processIntersection_count_frame net.signals net.network s s' e v
          (hpre0 e hemem) hok'
        exact ⟨(this.1 i).trans hP.1, this.2.trans hP.2⟩
      simp only [exFoldl] at hst
      split at hst
      · cases hst
      next st2 h2 =>
        obtain ⟨j, hj, hjc, hjt⟩ := processIntersection_self net.signals net.network
          st1 st2 i li v hQ1.1 hQ1.2 hli h2
        have hQ3 : countAt st.np j v = 1 ∧ totalOcc st.np v = 1 := by
          refine exFoldl_invariant (processIntersection net.signals net.network)
            (fun t => countAt t.np j v = 1 ∧ totalOcc t.np v = 1) post ?_
            st2 st hst ⟨hjc, hjt⟩
          intro s e s' hemem hok' hP
          have := processIntersection_count_frame net.signals net.network s s' e v
            (hpost0 e hemem) hok'
          exact ⟨(this.1 j).trans hP.1, this.2.trans hP.2⟩
        exact ⟨j, hj, hQ3.2, hQ3.1⟩

theorem C10_no_multi_hop_witness :
    (totalOcc c1Net.vehicles "Car3" = 1 ∧ countAt c1Net.vehicles 2 "Car3" = 1 ∧
     simulate_traffic_flow c1Net [0, 0, 0] none = .ok c1NetAfter) ∧
    ∃ j, (j = 2 ∨ ∃ nbrs, lookup c1Net.network 2 = some nbrs ∧ j ∈ nbrs) ∧
      totalOcc c1NetAfter.vehicles "Car3" = 1 ∧
      countAt c1NetAfter.vehicles j "Car3" = 1 :=
  ⟨⟨by decide, by decide, by rfl⟩,
    C10_no_multi_hop c1Net [0, 0, 0] c1NetAfter "Car3" 2
      (by decide) (by decide) (by rfl)⟩

end SmartTransport
